import Mathlib

/-!
Shallow embedding of the OCC→SOC crosswalk builders
(`build_cps_occ_to_soc_autodetect.py`, `build_occ_soc_from_2018_xwalk.py`,
`build_cps_occ_to_soc_from_2018_file.py`).

Python strings are modelled as `List Char`; a nullable cell is
`Option (List Char)` (`none` = NaN). Scores are rationals.
-/

namespace Crosswalk

/-- A Python string, modelled as its list of characters. -/
abbrev Str := List Char

/-- Characters removed by Python `str.strip()` (ASCII whitespace). -/
def pyIsSpace (c : Char) : Bool :=
  c = ' ' || c = '\t' || c = '\n' || c = '\r' || c = Char.ofNat 11 || c = Char.ofNat 12

/-- Python `str.strip()`. -/
def trim (s : Str) : Str :=
  ((s.dropWhile pyIsSpace).reverse.dropWhile pyIsSpace).reverse

/-- Embeds `str(val)` applied to a nullable cell, with `pd.isna` mapped to the empty
string as in `split_tokens` (`"" if pd.isna(val) else str(val)`). -/
def cellStr (val : Option Str) : Str :=
  match val with
  | none => []
  | some s => s

/-- The single-character delimiters of `DELIMS_RE`, the class `[;,/|&]`. -/
def isDelimChar (c : Char) : Bool :=
  c = ';' || c = ',' || c = '/' || c = '|' || c = '&'

/-- Does the string start with `" and "` (case-insensitive on the letters),
the second alternative of `DELIMS_RE`? -/
def isAndHead (l : Str) : Bool :=
  match l with
  | ' ' :: c1 :: c2 :: c3 :: ' ' :: _ =>
      c1.toLower = 'a' && c2.toLower = 'n' && c3.toLower = 'd'
  | _ => false

/-- Embeds `DELIMS_RE.search`: some position matches a delimiter. -/
def hasDelim : Str → Bool
  | [] => false
  | c :: rest => isDelimChar c || isAndHead (c :: rest) || hasDelim rest

/-- Embeds `DELIMS_RE.split`: left-to-right scan; at each position the character
class is tried first, then `" and "` (which consumes five characters).
Fuel-structured so the kernel can evaluate it; each step consumes at least
one character, so `fuel > length` always suffices. -/
def splitDelimsAux : Nat → Str → Str → List Str
  | 0, cur, _ => [cur.reverse]
  | _ + 1, cur, [] => [cur.reverse]
  | fuel + 1, cur, c :: rest =>
    if isDelimChar c then cur.reverse :: splitDelimsAux fuel [] rest
    else if isAndHead (c :: rest) then cur.reverse :: splitDelimsAux fuel [] (rest.drop 4)
    else splitDelimsAux fuel (c :: cur) rest

/-- Embeds `DELIMS_RE.split` on a whole string. -/
def splitDelims (l : Str) : List Str := splitDelimsAux (l.length + 1) [] l

/-- Embeds `split_tokens` (autodetect builder): strip, split on delimiters when one
is present, strip each piece and drop empties; otherwise a singleton (or
nothing for a blank cell). -/
def split_tokens (val : Option Str) : List Str :=
  let s := trim (cellStr val)
  if hasDelim s then ((splitDelims s).map trim).filter (fun t => !t.isEmpty)
  else if s.isEmpty then [] else [s]

/-- Embeds `tok.replace(" ", "")`: remove every ASCII space. -/
def stripSpaces (l : Str) : Str := l.filter (fun c => c ≠ ' ')

/-- Embeds `SOC_SINGLE_RE`, `^\d{2}-\d{4}$`. -/
def isSocHyphen (l : Str) : Bool :=
  match l with
  | [a, b, h, c, d, e, f] =>
      a.isDigit && b.isDigit && h = '-' && c.isDigit && d.isDigit && e.isDigit && f.isDigit
  | _ => false

/-- Embeds `SOC_DIGITS_RE`, `^\d{6}$`. -/
def isSocSix (l : Str) : Bool := l.length = 6 && l.all Char.isDigit

/-- Embeds `is_soc_token_like`. -/
def is_soc_token_like (tok : Str) : Bool :=
  let s := stripSpaces tok
  isSocHyphen s || isSocSix s

/-- Embeds `normalize_soc_token`: keep `NN-NNNN`, hyphenate 6 digits, else `None`. -/
def normalize_soc_token (tok : Str) : Option Str :=
  let s := stripSpaces tok
  if isSocHyphen s then some s
  else if isSocSix s then some (s.take 2 ++ '-' :: s.drop 2)
  else none

/-- Numeric value of a digit character. -/
def digitVal (c : Char) : Nat := c.toNat - 48

/-- Decimal value of a digit string (most significant first). -/
def digitsToNat (l : Str) : Nat := l.foldl (fun a c => 10 * a + digitVal c) 0

/-- The character of a digit. -/
def digitChar : Nat → Char
  | 0 => '0' | 1 => '1' | 2 => '2' | 3 => '3' | 4 => '4'
  | 5 => '5' | 6 => '6' | 7 => '7' | 8 => '8' | _ => '9'

/-- Little-endian decimal digits, fuel-structured so the kernel can
evaluate it; `fuel > n` always suffices. -/
def digitsRevAux : Nat → Nat → List Nat
  | 0, _ => []
  | fuel + 1, n => if n < 10 then [n] else (n % 10) :: digitsRevAux fuel (n / 10)

/-- Python `str(n)` for a non-negative integer: decimal, no leading zeros. -/
def pyStr (n : Nat) : Str := ((digitsRevAux (n + 1) n).reverse).map digitChar

/-- Value of a little-endian digit list (proof helper for `pyStr`). -/
def valLE : List Nat → Nat
  | [] => 0
  | d :: rest => d + 10 * valLE rest

/-- Embeds `int(float(s))` for a string of digits and dots (the only shape
`is_occ_like` feeds it): at most one dot and at least one digit are required,
and the value truncates to the integer part. Float rounding beyond 15
significant digits is not modelled; every use below stays in the exact
range. -/
def pyIntOfFloatStr (l : Str) : Option Nat :=
  if l.count '.' > 1 then none
  else if l.all (fun c => c = '.') then none
  else some (digitsToNat (l.takeWhile (fun c => c ≠ '.')))

/-- Embeds `is_occ_like`: no character outside digits and `.`, and the parsed
integer lies in `[0, 9999]`. -/
def is_occ_like (val : Option Str) : Bool :=
  match val with
  | none => false
  | some v =>
    let s := trim v
    if s.any (fun c => !(c.isDigit || c = '.')) then false
    else
      match pyIntOfFloatStr s with
      | none => false
      | some n => n ≤ 9999

/-- Embeds `str.zfill` / `f"{n:04d}"` padding: left-pad with zeros to width `k`. -/
def zfill (k : Nat) (l : Str) : Str := List.replicate (k - l.length) '0' ++ l

/-- Embeds `normalize_occ`: 4-digit zero-padded string, or `None` when not
OCC-like. -/
def normalize_occ (val : Option Str) : Option Str :=
  if is_occ_like val then
    match val with
    | none => none
    | some v => (pyIntOfFloatStr (trim v)).map (fun n => zfill 4 (pyStr n))
  else none

/-! ### Tables, column scores, detection (`build_cps_occ_to_soc_autodetect.py`) -/

/-- An in-memory sheet: ordered column labels and row-major nullable cells
(`none` = NaN). With `dtype=str` every present cell is a string. -/
structure Table where
  colNames : List Str
  rows : List (List (Option Str))
deriving Repr, DecidableEq

/-- Series of column `j`. -/
def colCells (t : Table) (j : Nat) : List (Option Str) :=
  t.rows.map (fun r => r.getD j none)

/-- Embeds `pandas` `astype(str)` on a nullable cell: NaN prints as `"nan"`. -/
def naStr (c : Option Str) : Str :=
  match c with
  | none => "nan".data
  | some s => s

/-- The in-place pre-trim at the top of `detect_occ_soc_columns`
(`df[c] = df[c].astype(str).str.strip()` on string-dtype columns): every
cell becomes a present, stripped string; NaN becomes the string `"nan"`. -/
def pretrimCell (c : Option Str) : Option Str := some (trim (naStr c))

/-- Embeds `column_score_occ`: fraction of the first `maxSample` non-null values
that are OCC-like; `0.0` for a series with no non-null value. -/
def column_score_occ (series : List (Option Str)) (maxSample : Nat) : ℚ :=
  let vals := series.filterMap id
  if vals.isEmpty then 0
  else
    let sample := vals.take maxSample
    let good := (sample.filter (fun v => is_occ_like (some v))).length
    mkRat good sample.length

/-- Embeds `any_soc` inside `column_score_soc`: some token of the cell is
SOC-like. -/
def anySoc (v : Str) : Bool := (split_tokens (some v)).any is_soc_token_like

/-- Embeds `column_score_soc`: fraction of the first `maxSample` non-null values
containing at least one SOC-like token; `0.0` for a series with no
non-null value. -/
def column_score_soc (series : List (Option Str)) (maxSample : Nat) : ℚ :=
  let vals := series.filterMap id
  if vals.isEmpty then 0
  else
    let sample := vals.take maxSample
    let good := (sample.filter anySoc).length
    mkRat good sample.length

/-- Result of `detect_occ_soc_columns`; columns are identified by index in
`colNames` order, `none` when no column was selected. -/
structure Detected where
  occCol : Option Nat
  socCol : Option Nat
  occScore : ℚ
  socScore : ℚ
deriving Repr, DecidableEq

/-- Per-column OCC scores of a table, after the in-place pre-trim. -/
def occScoresOf (t : Table) : List ℚ :=
  (List.range t.colNames.length).map
    (fun j => column_score_occ ((colCells t j).map pretrimCell) 400)

/-- Per-column SOC scores of a table, after the in-place pre-trim. -/
def socScoresOf (t : Table) : List ℚ :=
  (List.range t.colNames.length).map
    (fun j => column_score_soc ((colCells t j).map pretrimCell) 400)

/-- Embeds `max(..., key=...)` over an indexed score list: the first pair attaining
the maximum score (Python `max` keeps the first of several maxima). -/
def argmaxPairsAux (best : Nat × ℚ) : List (Nat × ℚ) → Nat × ℚ
  | [] => best
  | (i, x) :: xs => if x > best.2 then argmaxPairsAux (i, x) xs else argmaxPairsAux best xs

/-- First-maximum selection over an indexed score list. -/
def argmaxPairs : List (Nat × ℚ) → Option (Nat × ℚ)
  | [] => none
  | p :: xs => some (argmaxPairsAux p xs)

/-- Embeds `detect_occ_soc_columns`: best column per role, re-picking the SOC role
among the other columns when both roles land on the same column. -/
def detect_occ_soc_columns (t : Table) : Detected :=
  if t.rows.isEmpty || t.colNames.isEmpty then ⟨none, none, 0, 0⟩
  else
    match argmaxPairs (occScoresOf t).enum, argmaxPairs (socScoresOf t).enum with
    | some (i, os), some (j, ss) =>
      if j = i then
        match argmaxPairs ((socScoresOf t).enum.filter (fun p => p.1 ≠ i)) with
        | some (j2, ss2) => ⟨some i, some j2, os, ss2⟩
        | none => ⟨some i, none, os, 0⟩
      else ⟨some i, some j, os, ss⟩
    | _, _ => ⟨none, none, 0, 0⟩

/-- A workbook: ordered sheets. -/
abbrev Workbook := List (String × Table)

/-- The first sheet with the given name (`pd.read_excel(..., sheet_name=s)`). -/
def findSheet (s : String) (wb : Workbook) : Option Table :=
  (wb.find? (fun p => p.1 = s)).map (fun p => p.2)

/-- Combined score of a sheet, `occ_score * soc_score` of its detected
column pair. -/
def sheetCombo (t : Table) : ℚ :=
  let d := detect_occ_soc_columns t
  d.occScore * d.socScore

/-- The scan of `pick_best_sheet`: keep the current best unless a later
sheet's combo is strictly greater. -/
def pickAux (bestName : String) (bestT : Table) (bestCombo : ℚ) :
    List (String × Table) → String × Table
  | [] => (bestName, bestT)
  | (n, t) :: rest =>
    let c := sheetCombo t
    if c > bestCombo then pickAux n t c rest else pickAux bestName bestT bestCombo rest

/-- Embeds `pick_best_sheet`. An explicit sheet argument bypasses the scan. In the
scan the code seeds `best_combo = -1.0`, which the first sheet's
non-negative combo always beats (`sheetCombo_nonneg` below), so the scan
starts from the first sheet. -/
def pick_best_sheet (wb : Workbook) (sheetArg : Option String) :
    Option (String × Table) :=
  match sheetArg with
  | some s => (findSheet s wb).map (fun t => (s, t))
  | none =>
    match wb with
    | [] => none
    | (n, t) :: rest => some (pickAux n t (sheetCombo t) rest)

/-! ### The autodetect build pipeline -/

/-- An output row `(occ, soc)`. -/
abbrev Row := Str × Str

/-- Embeds `df.dropna(how="all")`: is every cell of the row missing? -/
def rowAllNa (ncols : Nat) (r : List (Option Str)) : Bool :=
  (List.range ncols).all (fun j => (r.getD j none).isNone)

/-- Drop fully-empty rows. -/
def dropAllNaRows (t : Table) : Table :=
  ⟨t.colNames, t.rows.filter (fun r => !rowAllNa t.colNames.length r)⟩

/-- Embeds `strict_soc`: only a single-token cell that normalizes contributes. -/
def strict_soc (v : Option Str) : Option Str :=
  match split_tokens v with
  | [tok] => normalize_soc_token tok
  | _ => none

/-- Embeds `drop_duplicates(keep="first")` on any list with decidable equality. -/
def dedupKeepFirstAux {α : Type} [DecidableEq α] (seen : List α) : List α → List α
  | [] => []
  | x :: xs =>
    if x ∈ seen then dedupKeepFirstAux seen xs
    else x :: dedupKeepFirstAux (x :: seen) xs

/-- Embeds `drop_duplicates(keep="first")`. -/
def dedupKeepFirst {α : Type} [DecidableEq α] (l : List α) : List α :=
  dedupKeepFirstAux [] l

/-- Embeds `df.duplicated(subset=["occ"], keep=False)` + `.unique()`: the occ
codes that appear in at least two (deduplicated) rows, in order of first
appearance. -/
def ambiguousOccs (rows : List Row) : List Str :=
  dedupKeepFirst
    ((rows.map Prod.fst).filter (fun o => 2 ≤ (rows.map Prod.fst).count o))

/-- Typed build failures of the autodetect builder. -/
inductive BuildError where
  | sheetNotFound : BuildError
  | columnDetectionFailed : String → ℚ → ℚ → BuildError
deriving Repr, DecidableEq

deriving instance DecidableEq for Except

/-- The diagnostics the builder computes and reports. -/
structure Diag where
  sheet : String
  rawRows : Nat
  afterOcc : Nat
  afterSoc : Nat
  ambiguousDropped : Nat
  finalRows : Nat
  lowRowWarning : Bool
deriving Repr, DecidableEq

/-- The OCC-normalization stage of `build_crosswalk`: pair the chosen
columns row-wise, keep rows whose occ normalizes. -/
def occNormStage (occCells socCells : List (Option Str)) :
    List (Str × Option Str) :=
  (occCells.zip socCells).filterMap
    (fun p => (normalize_occ p.1).map (fun oc => (oc, p.2)))

/-- The SOC stage of `build_crosswalk`: explode every valid token in expand
mode, keep only clean single-token cells in strict mode. -/
def socNormStage (allowMulti : Bool) (occRows : List (Str × Option Str)) :
    List Row :=
  if allowMulti then
    occRows.flatMap
      (fun p => ((split_tokens p.2).filterMap normalize_soc_token).map
        (fun sc => (p.1, sc)))
  else
    occRows.filterMap (fun p => (strict_soc p.2).map (fun sc => (p.1, sc)))

/-- The conflict-resolution tail of `build_crosswalk`: `(occ, soc)` dedup,
then drop every row of each ambiguous occ; returns the surviving rows and
the ambiguous occ list whose length the code reports. -/
def resolveStage (socRows : List Row) : List Row × List Str :=
  let deduped := dedupKeepFirst socRows
  let amb := ambiguousOccs deduped
  (deduped.filter (fun r => r.1 ∉ amb), amb)

/-- The row pipeline of `build_crosswalk` after column choice: OCC
normalization, SOC policy, `(occ, soc)` dedup, then the one-to-one drop —
which the code runs unconditionally, in strict and expand mode alike. -/
def crosswalkRows (occCells socCells : List (Option Str)) (allowMulti : Bool) :
    List Row × Nat × Nat × List Str :=
  let occRows := occNormStage occCells socCells
  let socRows := socNormStage allowMulti occRows
  let r := resolveStage socRows
  (r.1, occRows.length, socRows.length, r.2)

/-- Embeds `build_crosswalk`: sheet choice, empty-row drop, detection with the
score-threshold validation, then the row pipeline. No zero-row check
exists; `final_rows < 100` only sets the non-fatal warning. -/
def build_crosswalk (wb : Workbook) (sheetArg : Option String)
    (allowMulti : Bool) : Except BuildError (List Row × Diag) :=
  match pick_best_sheet wb sheetArg with
  | none => .error .sheetNotFound
  | some (name, t0) =>
    let t := dropAllNaRows t0
    let d := detect_occ_soc_columns t
    match d.occCol, d.socCol with
    | some i, some j =>
      if d.occScore < mkRat 1 2 ∨ d.socScore < mkRat 1 2 then
        .error (.columnDetectionFailed name d.occScore d.socScore)
      else
        let res := crosswalkRows (colCells t i) (colCells t j) allowMulti
        let final := res.1
        .ok (final,
          ⟨name, t.rows.length, res.2.1, res.2.2.1, res.2.2.2.length,
           final.length, decide (final.length < 100)⟩)
    | _, _ => .error (.columnDetectionFailed name d.occScore d.socScore)

/-! ### `build_occ_soc_from_2018_xwalk.py` -/

/-- Lower-case a string (`str.lower()` on ASCII names). -/
def lowerStr (l : Str) : Str := l.map Char.toLower

/-- Python `needle in hay` substring test. -/
def hasSub (p : Str) : Str → Bool
  | [] => p.isEmpty
  | c :: rest => p.isPrefixOf (c :: rest) || hasSub p rest

/-- Embeds `OCC_VAL`, `^\s*\d{3,4}\s*$`: after stripping, 3 or 4 digits. -/
def xwalkOccRe (l : Str) : Bool :=
  let s := trim l
  (s.length = 3 || s.length = 4) && s.all Char.isDigit

/-- Embeds `SOC_VAL2`, `^\s*\d{2}\D+\d{4}\s*$`: after stripping, two digits, a
non-empty run of non-digits, then four digits (the regex forces exactly
this decomposition, since `\D` and `\d` are disjoint). -/
def xwalkSocHyphenLike (l : Str) : Bool :=
  match trim l with
  | a :: b :: rest =>
    a.isDigit && b.isDigit && decide (5 ≤ rest.length) &&
      (rest.take (rest.length - 4)).all (fun c => !c.isDigit) &&
      (rest.drop (rest.length - 4)).all Char.isDigit
  | _ => false

/-- Embeds `SOC_VAL1 | SOC_VAL2`. -/
def xwalkSocRe (l : Str) : Bool := isSocSix (trim l) || xwalkSocHyphenLike l

/-- Result of `score_columns`. -/
structure ScoredCols where
  occCol : Option Nat
  occScore : ℚ
  socCol : Option Nat
  socScore : ℚ
deriving Repr, DecidableEq

/-- One candidate update of the `score_columns` loop: keep the incumbent
unless the new score is strictly greater (`>` with the `-1.0` seed). -/
def bestUpd (acc : Option Nat × ℚ) (j : Nat) (sc : ℚ) : Option Nat × ℚ :=
  if sc > acc.2 then (some j, sc) else acc

/-- The SOC score of column `j` in `score_columns` (shared by the main loop
and the second-best re-pick): match fraction plus the `+0.02` name-hint
bonus, `none` when the column has no non-`"nan"` cell. -/
def xwalkSocScoreOf (t : Table) (j : Nat) : Option ℚ :=
  let s := (colCells t j).map naStr
  let tot := (s.filter (fun v => v ≠ "nan".data)).length
  if tot = 0 then none
  else
    let base := mkRat ((s.filter xwalkSocRe).length) tot
    some (if hasSub "soc".data (lowerStr (t.colNames.getD j [])) then
            base + mkRat 1 50 else base)

/-- The OCC score of column `j` in `score_columns`. -/
def xwalkOccScoreOf (t : Table) (j : Nat) : Option ℚ :=
  let s := (colCells t j).map naStr
  let tot := (s.filter (fun v => v ≠ "nan".data)).length
  if tot = 0 then none
  else
    let base := mkRat ((s.filter xwalkOccRe).length) tot
    let cname := lowerStr (t.colNames.getD j [])
    some (if hasSub "occ".data cname || hasSub "2018".data cname ||
             hasSub "census".data cname then base + mkRat 1 50 else base)

/-- Embeds `score_columns`: best occ/soc columns by content share with name-hint
bonus; when both roles land on the same column the soc role is re-picked
among the other columns, but — unlike the autodetect variant — the shared
column is KEPT when no alternative column has a non-null cell
(`if second_soc is not None` leaves `best_soc` unchanged otherwise). -/
def score_columns (t : Table) : ScoredCols :=
  let idxs := List.range t.colNames.length
  let r := idxs.foldl
    (fun (acc : (Option Nat × ℚ) × (Option Nat × ℚ)) j =>
      match xwalkOccScoreOf t j, xwalkSocScoreOf t j with
      | some osc, some ssc => (bestUpd acc.1 j osc, bestUpd acc.2 j ssc)
      | _, _ => acc)
    ((none, (-1 : ℚ)), (none, (-1 : ℚ)))
  if r.1.1 = r.2.1 then
    let second := idxs.foldl
      (fun (acc : Option Nat × ℚ) j =>
        if some j = r.1.1 then acc
        else
          match xwalkSocScoreOf t j with
          | some ssc => bestUpd acc j ssc
          | none => acc)
      (none, (-1 : ℚ))
    match second.1 with
    | some j2 => ⟨r.1.1, r.1.2, some j2, second.2⟩
    | none => ⟨r.1.1, r.1.2, r.2.1, r.2.2⟩
  else ⟨r.1.1, r.1.2, r.2.1, r.2.2⟩

/-- Python `str[-n:]`: the last `n` characters. -/
def lastN (n : Nat) (l : Str) : Str := l.drop (l.length - n)

/-- Lexicographic `<` on strings by code point (Python/pandas string
order). -/
def strLt : Str → Str → Bool
  | [], [] => false
  | [], _ :: _ => true
  | _ :: _, [] => false
  | a :: as, b :: bs => if a = b then strLt as bs else decide (a.toNat < b.toNat)

/-- Lexicographic `≤` on strings by code point. -/
def strLe : Str → Str → Bool
  | [], _ => true
  | _ :: _, [] => false
  | a :: as, b :: bs => if a = b then strLe as bs else decide (a.toNat < b.toNat)

/-- Insertion of `sortLe`. -/
def insertLe {α : Type} (le : α → α → Bool) (x : α) : List α → List α
  | [] => [x]
  | y :: ys => if le x y then x :: y :: ys else y :: insertLe le x ys

/-- Insertion sort. `pandas.sort_values` is used in the source only on keys
that are total (distinct rows / distinct tie-break indices), where every
sorting algorithm returns the same list, so insertion sort is a faithful
embedding. -/
def sortLe {α : Type} (le : α → α → Bool) : List α → List α
  | [] => []
  | x :: xs => insertLe le x (sortLe le xs)

/-- Embeds `drop_duplicates(subset=key, keep="first")`. -/
def dedupByKeyAux {α β : Type} [DecidableEq β] (key : α → β) (seen : List β) :
    List α → List α
  | [] => []
  | x :: xs =>
    if key x ∈ seen then dedupByKeyAux key seen xs
    else x :: dedupByKeyAux key (key x :: seen) xs

/-- Embeds `drop_duplicates(subset=key, keep="first")` on a whole list. -/
def dedupByKey {α β : Type} [DecidableEq β] (key : α → β) (l : List α) : List α :=
  dedupByKeyAux key [] l

/-- Embeds `(occ, soc)` row order: ascending `occ`, ties by ascending `soc`
(`sort_values(["occ", "soc"])`). -/
def rowLe (r1 r2 : Row) : Bool :=
  if r1.1 = r2.1 then strLe r1.2 r2.2 else strLe r1.1 r2.1

/-- Embeds `clean_map`: digit-coercion of both columns, shape filters, `(occ,
soc)` dedup, canonical sort, then one row per occ (first kept). -/
def clean_map (t : Table) (occCol socCol : Nat) : List Row :=
  let sOcc := (colCells t occCol).map (fun c => trim (naStr c))
  let sSoc := (colCells t socCol).map (fun c => trim (naStr c))
  let occ := sOcc.map (fun s => zfill 4 (lastN 4 (s.filter Char.isDigit)))
  let soc := sSoc.map (fun s =>
    let d6 := (s.filter Char.isDigit).take 6
    d6.take 2 ++ '-' :: d6.drop 2)
  let out := occ.zip soc
  let out := out.filter (fun r => r.1.length = 4 && r.1.all Char.isDigit)
  let out := out.filter (fun r => isSocHyphen r.2)
  let out := dedupKeepFirst out
  let out := sortLe rowLe out
  dedupByKey Prod.fst out

/-- The zero-row check of `main` in `build_occ_soc_from_2018_xwalk.py`
(lines 163–168): a cleaned map with 0 rows aborts the build
(`sys.exit(3)`), anything else is written out. -/
inductive XwalkErr where
  | normalizationEmpty : XwalkErr
deriving Repr, DecidableEq

/-- Embeds `main`'s finalization of the cleaned map. -/
def xwalkFinalize (out : List Row) : Except XwalkErr (List Row) :=
  if out.length = 0 then .error .normalizationEmpty else .ok out

/-! ### `build_cps_occ_to_soc_from_2018_file.py` (preferred-code variant) -/

/-- Embeds `(~t['soc'].str.endswith('0000')).astype(int)`: 1 for a specific SOC,
0 for a bare major-group code. -/
def prefScore (soc : Str) : Nat := if "0000".data.isSuffixOf soc then 0 else 1

/-- Embeds `sort_values(['occ','score','row'], ascending=[True, False, True])`:
occ ascending, score descending, original index ascending. Total on
distinct indices. -/
def prefKeyLe (a b : Nat × Row) : Bool :=
  if a.2.1 ≠ b.2.1 then strLe a.2.1 b.2.1
  else if prefScore a.2.2 ≠ prefScore b.2.2 then prefScore b.2.2 ≤ prefScore a.2.2
  else a.1 ≤ b.1

/-- Lines 28–36 of `build` in `build_cps_occ_to_soc_from_2018_file.py` as a
function of the candidate `(occ, soc)` rows (the state after the
`dropna`/`drop_duplicates` of line 28): index, sort by the preferred-code
key, keep the first row of each occ. -/
def build_2018_resolve (rows : List Row) : List Row :=
  let indexed := rows.enum
  let sorted := sortLe prefKeyLe indexed
  (dedupByKey (fun p => p.2.1) sorted).map (fun p => p.2)

/-! ### Lemmas: deduplication -/

theorem mem_dedupKeepFirstAux {α : Type} [DecidableEq α] (l : List α) :
    ∀ (seen : List α) (x : α),
      x ∈ dedupKeepFirstAux seen l ↔ x ∈ l ∧ x ∉ seen := by
  induction l with
  | nil => intro seen x; simp [dedupKeepFirstAux]
  | cons y ys ih =>
    intro seen x
    by_cases hy : y ∈ seen
    · rw [dedupKeepFirstAux, if_pos hy, ih]
      constructor
      · rintro ⟨hx, hn⟩
        exact ⟨List.mem_cons_of_mem y hx, hn⟩
      · rintro ⟨hx, hn⟩
        rcases List.mem_cons.1 hx with rfl | hx
        · exact absurd hy hn
        · exact ⟨hx, hn⟩
    · rw [dedupKeepFirstAux, if_neg hy]
      constructor
      · intro hx
        rcases List.mem_cons.1 hx with rfl | hx
        · exact ⟨List.mem_cons_self x ys, hy⟩
        · rcases (ih (y :: seen) x).1 hx with ⟨hx2, hn2⟩
          exact ⟨List.mem_cons_of_mem y hx2,
                 fun hs => hn2 (List.mem_cons_of_mem y hs)⟩
      · rintro ⟨hx, hn⟩
        by_cases hxy : x = y
        · subst hxy; exact List.mem_cons_self x _
        · rcases List.mem_cons.1 hx with rfl | hx
          · exact absurd rfl hxy
          · refine List.mem_cons_of_mem y ((ih (y :: seen) x).2 ⟨hx, ?_⟩)
            intro hs
            rcases List.mem_cons.1 hs with h | h
            · exact hxy h
            · exact hn h

theorem mem_dedupKeepFirst {α : Type} [DecidableEq α] (l : List α) (x : α) :
    x ∈ dedupKeepFirst l ↔ x ∈ l := by
  simp [dedupKeepFirst, mem_dedupKeepFirstAux]

theorem nodup_dedupKeepFirstAux {α : Type} [DecidableEq α] (l : List α) :
    ∀ seen : List α, (dedupKeepFirstAux seen l).Nodup := by
  induction l with
  | nil => intro seen; simp [dedupKeepFirstAux]
  | cons y ys ih =>
    intro seen
    by_cases hy : y ∈ seen
    · simpa [dedupKeepFirstAux, hy] using ih seen
    · rw [dedupKeepFirstAux, if_neg hy]
      refine List.Nodup.cons ?_ (ih (y :: seen))
      intro hmem
      exact ((mem_dedupKeepFirstAux ys (y :: seen) y).1 hmem).2
        (List.mem_cons_self y seen)

theorem nodup_dedupKeepFirst {α : Type} [DecidableEq α] (l : List α) :
    (dedupKeepFirst l).Nodup := nodup_dedupKeepFirstAux l []

theorem sublist_dedupKeepFirstAux {α : Type} [DecidableEq α] (l : List α) :
    ∀ seen : List α, List.Sublist (dedupKeepFirstAux seen l) l := by
  induction l with
  | nil => intro seen; simp [dedupKeepFirstAux]
  | cons y ys ih =>
    intro seen
    by_cases hy : y ∈ seen
    · rw [dedupKeepFirstAux, if_pos hy]
      exact List.Sublist.cons y (ih seen)
    · rw [dedupKeepFirstAux, if_neg hy]
      exact List.Sublist.cons₂ y (ih (y :: seen))

theorem sublist_dedupByKeyAux {α β : Type} [DecidableEq β] (key : α → β)
    (l : List α) : ∀ seen : List β, List.Sublist (dedupByKeyAux key seen l) l := by
  induction l with
  | nil => intro seen; simp [dedupByKeyAux]
  | cons y ys ih =>
    intro seen
    by_cases hy : key y ∈ seen
    · rw [dedupByKeyAux, if_pos hy]
      exact List.Sublist.cons y (ih seen)
    · rw [dedupByKeyAux, if_neg hy]
      exact List.Sublist.cons₂ y (ih (key y :: seen))

/-- Lemma: `drop_duplicates(subset=key, keep="first")` keeps, for each key value,
exactly the first element carrying it: filtering the result to one key is
`take 1` of filtering the input. -/
theorem dedupByKeyAux_filter {α β : Type} [DecidableEq β] (key : α → β)
    (o : β) (l : List α) :
    ∀ seen : List β,
      (dedupByKeyAux key seen l).filter (fun x => key x = o) =
        if o ∈ seen then [] else (l.filter (fun x => key x = o)).take 1 := by
  induction l with
  | nil => intro seen; by_cases h : o ∈ seen <;> simp [dedupByKeyAux, h]
  | cons y ys ih =>
    intro seen
    by_cases hy : key y ∈ seen
    · rw [dedupByKeyAux, if_pos hy, ih seen]
      by_cases ho : o ∈ seen
      · simp [ho]
      · have hne : ¬ (key y = o) := fun h => ho (h ▸ hy)
        rw [if_neg ho, if_neg ho, List.filter_cons_of_neg (by simp [hne])]
    · rw [dedupByKeyAux, if_neg hy]
      by_cases hko : key y = o
      · have ho : o ∉ seen := fun h => hy (hko ▸ h)
        have hmem : o ∈ key y :: seen := by simp [hko]
        rw [if_neg ho,
            List.filter_cons_of_pos (by simp [hko]),
            List.filter_cons_of_pos (by simp [hko]),
            ih (key y :: seen), if_pos hmem]
        simp
      · have hmem : o ∈ key y :: seen ↔ o ∈ seen := by
          simp only [List.mem_cons]
          constructor
          · rintro (h | h)
            · exact absurd h.symm hko
            · exact h
          · exact Or.inr
        rw [List.filter_cons_of_neg (by simp [hko]), ih (key y :: seen),
            List.filter_cons_of_neg (by simp [hko])]
        by_cases ho : o ∈ seen
        · rw [if_pos (hmem.2 ho), if_pos ho]
        · rw [if_neg (fun h => ho (hmem.1 h)), if_neg ho]

theorem dedupByKey_filter {α β : Type} [DecidableEq β] (key : α → β)
    (o : β) (l : List α) :
    (dedupByKey key l).filter (fun x => key x = o) =
      (l.filter (fun x => key x = o)).take 1 := by
  simpa using dedupByKeyAux_filter key o l []

/-! ### Lemmas: insertion sort -/

theorem mem_insertLe {α : Type} (le : α → α → Bool) (x : α) (l : List α) (z : α) :
    z ∈ insertLe le x l ↔ z = x ∨ z ∈ l := by
  induction l with
  | nil => simp [insertLe]
  | cons y ys ih =>
    by_cases h : le x y
    · simp [insertLe, h]
    · simp only [insertLe, if_neg h, List.mem_cons, ih]
      tauto

theorem perm_insertLe {α : Type} (le : α → α → Bool) (x : α) (l : List α) :
    List.Perm (insertLe le x l) (x :: l) := by
  induction l with
  | nil => simp [insertLe]
  | cons y ys ih =>
    by_cases h : le x y
    · simp [insertLe, h]
    · rw [insertLe, if_neg h]
      exact List.Perm.trans (List.Perm.cons y ih) (List.Perm.swap x y ys)

theorem perm_sortLe {α : Type} (le : α → α → Bool) (l : List α) :
    List.Perm (sortLe le l) l := by
  induction l with
  | nil => simp [sortLe]
  | cons y ys ih =>
    exact List.Perm.trans (perm_insertLe le y (sortLe le ys)) (List.Perm.cons y ih)

theorem pairwise_insertLe {α : Type} (le : α → α → Bool)
    (htot : ∀ a b, le a b = true ∨ le b a = true)
    (htr : ∀ a b c, le a b = true → le b c = true → le a c = true)
    (x : α) (l : List α)
    (h : l.Pairwise (fun a b => le a b = true)) :
    (insertLe le x l).Pairwise (fun a b => le a b = true) := by
  induction l with
  | nil => simp [insertLe]
  | cons y ys ih =>
    rcases List.pairwise_cons.1 h with ⟨hy, hys⟩
    by_cases hxy : le x y
    · rw [insertLe, if_pos hxy]
      refine List.Pairwise.cons ?_ h
      intro z hz
      rcases List.mem_cons.1 hz with rfl | hz
      · exact hxy
      · exact htr x y z hxy (hy z hz)
    · rw [insertLe, if_neg hxy]
      refine List.Pairwise.cons ?_ (ih hys)
      intro z hz
      rcases (mem_insertLe le x ys z).1 hz with rfl | hz
      · rcases htot z y with hh | hh
        · exact absurd hh hxy
        · exact hh
      · exact hy z hz

theorem pairwise_sortLe {α : Type} (le : α → α → Bool)
    (htot : ∀ a b, le a b = true ∨ le b a = true)
    (htr : ∀ a b c, le a b = true → le b c = true → le a c = true)
    (l : List α) :
    (sortLe le l).Pairwise (fun a b => le a b = true) := by
  induction l with
  | nil => simp [sortLe]
  | cons y ys ih => exact pairwise_insertLe le htot htr y _ ih

/-! ### Lemmas: string and key orders -/

theorem char_eq_of_toNat_eq {a b : Char} (h : a.toNat = b.toNat) : a = b := by
  have h2 := congrArg Char.ofNat h
  rwa [Char.ofNat_toNat, Char.ofNat_toNat] at h2

theorem strLt_irrefl (l : Str) : strLt l l = false := by
  induction l with
  | nil => rfl
  | cons a as ih => simp [strLt, ih]

theorem strLt_ne {a b : Str} (h : strLt a b = true) : a ≠ b := by
  intro he
  rw [he, strLt_irrefl] at h
  exact Bool.false_ne_true h

theorem strLe_refl (l : Str) : strLe l l = true := by
  induction l with
  | nil => rfl
  | cons a as ih => simp [strLe, ih]

theorem strLe_iff (a : Str) : ∀ b : Str, strLe a b = true ↔ strLt a b = true ∨ a = b := by
  induction a with
  | nil => intro b; cases b <;> simp [strLe, strLt]
  | cons x xs ih =>
    intro b
    cases b with
    | nil => simp [strLe, strLt]
    | cons y ys =>
      by_cases hxy : x = y
      · subst hxy
        simp [strLe, strLt, ih ys]
      · simp [strLe, strLt, hxy]

theorem strLt_trans {a : Str} : ∀ {b c : Str},
    strLt a b = true → strLt b c = true → strLt a c = true := by
  induction a with
  | nil =>
    intro b c h1 h2
    cases b with
    | nil => exact absurd h1 (by simp [strLt])
    | cons y ys =>
      cases c with
      | nil => exact absurd h2 (by simp [strLt])
      | cons z zs => rfl
  | cons x xs ih =>
    intro b c h1 h2
    cases b with
    | nil => exact absurd h1 (by simp [strLt])
    | cons y ys =>
      cases c with
      | nil => exact absurd h2 (by simp [strLt])
      | cons z zs =>
        by_cases hxy : x = y
        · subst hxy
          by_cases hyz : x = z
          · subst hyz
            simp only [strLt, if_pos rfl] at h1 h2 ⊢
            exact ih h1 h2
          · simpa [strLt, hyz] using h2
        · by_cases hyz : y = z
          · subst hyz
            simpa [strLt, hxy] using h1
          · simp only [strLt, if_neg hxy, decide_eq_true_eq] at h1
            simp only [strLt, if_neg hyz, decide_eq_true_eq] at h2
            by_cases hxz : x = z
            · subst hxz
              omega
            · simp only [strLt, if_neg hxz, decide_eq_true_eq]
              omega

theorem strLt_asymm {a b : Str} (h1 : strLt a b = true) (h2 : strLt b a = true) :
    False := by
  have := strLt_trans h1 h2
  rw [strLt_irrefl] at this
  exact Bool.false_ne_true this

theorem strLe_trans {a b c : Str} (h1 : strLe a b = true) (h2 : strLe b c = true) :
    strLe a c = true := by
  rcases (strLe_iff a b).1 h1 with hl | rfl
  · rcases (strLe_iff b c).1 h2 with hl2 | rfl
    · exact (strLe_iff a c).2 (Or.inl (strLt_trans hl hl2))
    · exact (strLe_iff a b).2 (Or.inl hl)
  · exact h2

theorem strLe_total (a : Str) : ∀ b : Str, strLe a b = true ∨ strLe b a = true := by
  induction a with
  | nil => intro b; left; cases b <;> rfl
  | cons x xs ih =>
    intro b
    cases b with
    | nil => right; rfl
    | cons y ys =>
      by_cases hxy : x = y
      · subst hxy
        rcases ih ys with h | h
        · left; simpa [strLe] using h
        · right; simpa [strLe] using h
      · have hne : x.toNat ≠ y.toNat := fun h => hxy (char_eq_of_toNat_eq h)
        rcases Nat.lt_or_ge x.toNat y.toNat with h | h
        · left
          rw [strLe, if_neg hxy]
          simpa using h
        · right
          have hlt : y.toNat < x.toNat := by omega
          rw [strLe, if_neg (Ne.symm hxy)]
          simpa using hlt

theorem strLt_of_le_of_ne {a b : Str} (h : strLe a b = true) (hne : a ≠ b) :
    strLt a b = true := by
  rcases (strLe_iff a b).1 h with hl | rfl
  · exact hl
  · exact absurd rfl hne

theorem rowLe_total (r1 r2 : Row) : rowLe r1 r2 = true ∨ rowLe r2 r1 = true := by
  unfold rowLe
  by_cases h : r1.1 = r2.1
  · rw [if_pos h, if_pos h.symm]
    exact strLe_total r1.2 r2.2
  · rw [if_neg h, if_neg (Ne.symm h)]
    exact strLe_total r1.1 r2.1

theorem rowLe_trans {a b c : Row} (h1 : rowLe a b = true) (h2 : rowLe b c = true) :
    rowLe a c = true := by
  unfold rowLe at h1 h2 ⊢
  by_cases e1 : a.1 = b.1
  · by_cases e2 : b.1 = c.1
    · have e3 : a.1 = c.1 := e1.trans e2
      rw [if_pos e1] at h1
      rw [if_pos e2] at h2
      rw [if_pos e3]
      exact strLe_trans h1 h2
    · have e3 : a.1 ≠ c.1 := fun h => e2 (e1 ▸ h)
      rw [if_neg e2] at h2
      rw [if_neg e3, e1]
      exact h2
  · by_cases e2 : b.1 = c.1
    · have e3 : a.1 ≠ c.1 := fun h => e1 (h.trans e2.symm)
      rw [if_neg e1] at h1
      rw [if_neg e3, ← e2]
      exact h1
    · rw [if_neg e1] at h1
      rw [if_neg e2] at h2
      have l1 := strLt_of_le_of_ne h1 e1
      have l2 := strLt_of_le_of_ne h2 e2
      have l3 := strLt_trans l1 l2
      rw [if_neg (strLt_ne l3)]
      exact (strLe_iff a.1 c.1).2 (Or.inl l3)

theorem prefKeyLe_total (a b : Nat × Row) :
    prefKeyLe a b = true ∨ prefKeyLe b a = true := by
  unfold prefKeyLe
  by_cases h : a.2.1 = b.2.1
  · rw [if_neg (not_not_intro h), if_neg (not_not_intro h.symm)]
    by_cases hs : prefScore a.2.2 = prefScore b.2.2
    · rw [if_neg (not_not_intro hs), if_neg (not_not_intro hs.symm)]
      simp only [decide_eq_true_eq]
      omega
    · rw [if_pos hs, if_pos (Ne.symm hs)]
      simp only [decide_eq_true_eq]
      omega
  · rw [if_pos h, if_pos (Ne.symm h)]
    exact strLe_total a.2.1 b.2.1

theorem prefKeyLe_trans {a b c : Nat × Row} (h1 : prefKeyLe a b = true)
    (h2 : prefKeyLe b c = true) : prefKeyLe a c = true := by
  unfold prefKeyLe at h1 h2 ⊢
  by_cases e1 : a.2.1 = b.2.1
  · by_cases e2 : b.2.1 = c.2.1
    · have e3 : a.2.1 = c.2.1 := e1.trans e2
      rw [if_neg (not_not_intro e1)] at h1
      rw [if_neg (not_not_intro e2)] at h2
      rw [if_neg (not_not_intro e3)]
      split_ifs at h1 h2 ⊢ <;>
        simp only [decide_eq_true_eq] at h1 h2 ⊢ <;> omega
    · have e3 : a.2.1 ≠ c.2.1 := fun h => e2 (e1 ▸ h)
      rw [if_pos e2] at h2
      rw [if_pos e3, e1]
      exact h2
  · by_cases e2 : b.2.1 = c.2.1
    · have e3 : a.2.1 ≠ c.2.1 := fun h => e1 (h.trans e2.symm)
      rw [if_pos e1] at h1
      rw [if_pos e3, ← e2]
      exact h1
    · rw [if_pos e1] at h1
      rw [if_pos e2] at h2
      have l1 := strLt_of_le_of_ne h1 e1
      have l2 := strLt_of_le_of_ne h2 e2
      have l3 := strLt_trans l1 l2
      rw [if_pos (strLt_ne l3)]
      exact (strLe_iff _ _).2 (Or.inl l3)

/-! ### Lemmas: decimal strings and `normalize_occ` -/

theorem valLE_digitsRevAux : ∀ fuel n, n < fuel → valLE (digitsRevAux fuel n) = n := by
  intro fuel
  induction fuel with
  | zero => intro n h; exact absurd h (Nat.not_lt_zero n)
  | succ f ih =>
    intro n h
    rw [digitsRevAux]
    by_cases h10 : n < 10
    · rw [if_pos h10]; simp [valLE]
    · rw [if_neg h10]
      have hdiv : n / 10 < f := by
        have := Nat.div_lt_self (show 0 < n by omega) (show 1 < 10 by omega)
        omega
      simp only [valLE, ih (n / 10) hdiv]
      omega

theorem digitsRevAux_lt10 : ∀ fuel n, ∀ d ∈ digitsRevAux fuel n, d < 10 := by
  intro fuel
  induction fuel with
  | zero => intro n d hd; simp [digitsRevAux] at hd
  | succ f ih =>
    intro n d hd
    rw [digitsRevAux] at hd
    by_cases h10 : n < 10
    · rw [if_pos h10] at hd
      simp at hd
      omega
    · rw [if_neg h10] at hd
      rcases List.mem_cons.1 hd with rfl | hd
      · omega
      · exact ih (n / 10) d hd

theorem digitsRevAux_ne_nil (fuel n : Nat) (h : 0 < fuel) :
    digitsRevAux fuel n ≠ [] := by
  cases fuel with
  | zero => omega
  | succ f =>
    rw [digitsRevAux]
    by_cases h10 : n < 10
    · rw [if_pos h10]; simp
    · rw [if_neg h10]; simp

theorem digitsRevAux_len : ∀ fuel n k, n < 10 ^ k → 1 ≤ k →
    (digitsRevAux fuel n).length ≤ k := by
  intro fuel
  induction fuel with
  | zero => intro n k _ _; simp [digitsRevAux]
  | succ f ih =>
    intro n k hk h1
    rw [digitsRevAux]
    by_cases h10 : n < 10
    · rw [if_pos h10]; simpa using h1
    · rw [if_neg h10]
      simp only [List.length_cons]
      have hk2 : 2 ≤ k := by
        rcases Nat.lt_or_ge k 2 with h | h
        · exfalso
          have : k = 1 := by omega
          subst this
          simp at hk
          omega
        · exact h
      have hsplit : 10 ^ k = 10 ^ (k - 1) * 10 := by
        have hkk : k - 1 + 1 = k := by omega
        rw [← pow_succ, hkk]
      have hdiv : n / 10 < 10 ^ (k - 1) := by
        rw [Nat.div_lt_iff_lt_mul (by omega : 0 < 10)]
        omega
      have := ih (n / 10) (k - 1) hdiv (by omega)
      omega

theorem digitsToNat_append (l : Str) (c : Char) :
    digitsToNat (l ++ [c]) = 10 * digitsToNat l + digitVal c := by
  unfold digitsToNat
  rw [List.foldl_append]
  rfl

theorem digitVal_digitChar : ∀ d, d < 10 → digitVal (digitChar d) = d := by decide

theorem digitChar_isDigit : ∀ d, d < 10 → (digitChar d).isDigit = true := by decide

theorem digitsToNat_rev_map (l : List Nat) (h : ∀ d ∈ l, d < 10) :
    digitsToNat ((l.reverse).map digitChar) = valLE l := by
  induction l with
  | nil => rfl
  | cons d rest ih =>
    rw [List.reverse_cons, List.map_append]
    simp only [List.map_cons, List.map_nil]
    rw [digitsToNat_append, ih (fun x hx => h x (List.mem_cons_of_mem d hx)),
        digitVal_digitChar d (h d (List.mem_cons_self d rest))]
    simp only [valLE]
    omega

theorem digitsToNat_pyStr (n : Nat) : digitsToNat (pyStr n) = n := by
  unfold pyStr
  rw [digitsToNat_rev_map _ (digitsRevAux_lt10 (n + 1) n)]
  exact valLE_digitsRevAux (n + 1) n (Nat.lt_succ_self n)

theorem pyStr_all_digits (n : Nat) : (pyStr n).all Char.isDigit = true := by
  unfold pyStr
  rw [List.all_eq_true]
  intro c hc
  rcases List.mem_map.1 hc with ⟨d, hd, rfl⟩
  exact digitChar_isDigit d (digitsRevAux_lt10 (n + 1) n d (List.mem_reverse.1 hd))

theorem pyStr_ne_nil (n : Nat) : pyStr n ≠ [] := by
  unfold pyStr
  intro h
  rcases List.map_eq_nil_iff.1 h with h2
  rw [List.reverse_eq_nil_iff] at h2
  exact digitsRevAux_ne_nil (n + 1) n (Nat.succ_pos n) h2

theorem pyStr_length_le (n : Nat) (h : n ≤ 9999) : (pyStr n).length ≤ 4 := by
  unfold pyStr
  rw [List.length_map, List.length_reverse]
  have h4 : (10 : Nat) ^ 4 = 10000 := by norm_num
  exact digitsRevAux_len (n + 1) n 4 (by omega) (by omega)

theorem not_space_of_digit {c : Char} (h : c.isDigit = true) : pyIsSpace c = false := by
  cases hsp : pyIsSpace c
  · rfl
  · exfalso
    simp only [pyIsSpace, Bool.or_eq_true, decide_eq_true_eq] at hsp
    rcases hsp with (((((h1 | h1) | h1) | h1) | h1) | h1) <;> subst h1 <;>
      exact absurd h (by decide)

theorem dropWhile_eq_self {α : Type} (p : α → Bool) (l : List α)
    (h : ∀ c ∈ l, p c = false) : l.dropWhile p = l := by
  cases l with
  | nil => rfl
  | cons a as =>
    rw [List.dropWhile_cons, if_neg]
    simp [h a (List.mem_cons_self a as)]

theorem takeWhile_eq_self {α : Type} (p : α → Bool) (l : List α)
    (h : ∀ c ∈ l, p c = true) : l.takeWhile p = l := by
  induction l with
  | nil => rfl
  | cons a as ih =>
    rw [List.takeWhile_cons, if_pos (h a (List.mem_cons_self a as)),
        ih (fun c hc => h c (List.mem_cons_of_mem a hc))]

theorem trim_of_digits (l : Str) (h : l.all Char.isDigit = true) : trim l = l := by
  have h' : ∀ c ∈ l, pyIsSpace c = false :=
    fun c hc => not_space_of_digit (List.all_eq_true.1 h c hc)
  unfold trim
  rw [dropWhile_eq_self _ _ h',
      dropWhile_eq_self _ _ (fun c hc => h' c (List.mem_reverse.1 hc)),
      List.reverse_reverse]

theorem parse_digits (l : Str) (hd : l.all Char.isDigit = true) (hne : l ≠ []) :
    pyIntOfFloatStr l = some (digitsToNat l) := by
  have hdot : '.' ∉ l := by
    intro hm
    exact absurd (List.all_eq_true.1 hd '.' hm) (by decide)
  unfold pyIntOfFloatStr
  rw [if_neg, if_neg, takeWhile_eq_self]
  · intro c hc
    have := List.all_eq_true.1 hd c hc
    have hcne : c ≠ '.' := by
      intro h2
      subst h2
      exact absurd this (by decide)
    simp [hcne]
  · intro hall
    cases l with
    | nil => exact hne rfl
    | cons a as =>
      have := List.all_eq_true.1 hall a (List.mem_cons_self a as)
      simp only [decide_eq_true_eq] at this
      subst this
      exact absurd (List.all_eq_true.1 hd '.' (List.mem_cons_self _ as)) (by decide)
  · rw [List.count_eq_zero.2 hdot]
    omega

theorem digitsToNat_zeros (k : Nat) (l : Str) :
    digitsToNat (List.replicate k '0' ++ l) = digitsToNat l := by
  induction k with
  | zero => rfl
  | succ m ih =>
    rw [List.replicate_succ, List.cons_append]
    unfold digitsToNat at ih ⊢
    simp only [List.foldl_cons]
    have h0 : (10 * 0 + digitVal '0') = 0 := by decide
    rw [h0]
    exact ih

theorem zfill_all_digits (l : Str) (h : l.all Char.isDigit = true) :
    (zfill 4 l).all Char.isDigit = true := by
  unfold zfill
  rw [List.all_append, h]
  simp only [Bool.and_true]
  rw [List.all_eq_true]
  intro c hc
  rw [List.eq_of_mem_replicate hc]
  decide

theorem zfill_length (l : Str) (h : l.length ≤ 4) : (zfill 4 l).length = 4 := by
  unfold zfill
  rw [List.length_append, List.length_replicate]
  omega

theorem zfill_digitsToNat (l : Str) : digitsToNat (zfill 4 l) = digitsToNat l :=
  digitsToNat_zeros (4 - l.length) l

theorem is_occ_like_of_digits (l : Str) (hd : l.all Char.isDigit = true)
    (hne : l ≠ []) (hle : digitsToNat l ≤ 9999) :
    is_occ_like (some l) = true := by
  have hred : is_occ_like (some l) =
      (if ((trim l).any fun c => !(c.isDigit || c = '.')) = true then false
       else
         match pyIntOfFloatStr (trim l) with
         | none => false
         | some n => decide (n ≤ 9999)) := rfl
  rw [hred]
  have hany : ((trim l).any fun c => !(c.isDigit || c = '.')) = false := by
    rw [trim_of_digits l hd, List.any_eq_false]
    intro c hc
    rw [List.all_eq_true.1 hd c hc]
    simp
  rw [hany, if_neg Bool.false_ne_true, trim_of_digits l hd, parse_digits l hd hne]
  simpa using hle

theorem normalize_occ_of_digits (l : Str) (hd : l.all Char.isDigit = true)
    (hne : l ≠ []) (hle : digitsToNat l ≤ 9999) :
    normalize_occ (some l) = some (zfill 4 (pyStr (digitsToNat l))) := by
  have hred : normalize_occ (some l) =
      (if is_occ_like (some l) = true then
        (pyIntOfFloatStr (trim l)).map (fun n => zfill 4 (pyStr n))
       else none) := rfl
  rw [hred, if_pos (is_occ_like_of_digits l hd hne hle),
      trim_of_digits l hd, parse_digits l hd hne]
  rfl

theorem zfill_pyStr_ne_nil (n : Nat) : zfill 4 (pyStr n) ≠ [] := by
  unfold zfill
  intro h
  rcases List.append_eq_nil.1 h with ⟨_, h2⟩
  exact pyStr_ne_nil n h2

theorem normalize_occ_fixed (n : Nat) (h : n ≤ 9999) :
    normalize_occ (some (zfill 4 (pyStr n))) = some (zfill 4 (pyStr n)) := by
  have hd := zfill_all_digits (pyStr n) (pyStr_all_digits n)
  have hval : digitsToNat (zfill 4 (pyStr n)) = n := by
    rw [zfill_digitsToNat, digitsToNat_pyStr]
  rw [normalize_occ_of_digits _ hd (zfill_pyStr_ne_nil n) (by omega), hval]

/-! ### Score total-ness helpers -/

theorem mkRat_nat_nonneg (a b : Nat) : 0 ≤ mkRat (a : Int) b := by
  rw [Rat.mkRat_eq_div]
  positivity

theorem mkRat_nat_le_one (a b : Nat) (h : a ≤ b) : mkRat (a : Int) b ≤ 1 := by
  rcases Nat.eq_zero_or_pos b with rfl | hb
  · rw [Rat.mkRat_eq_div]
    simp
  · rw [Rat.mkRat_eq_div, div_le_one (by exact_mod_cast hb)]
    exact_mod_cast h

theorem column_score_occ_nil (series : List (Option Str)) (m : Nat)
    (h : series.filterMap id = []) : column_score_occ series m = 0 := by
  simp [column_score_occ, h]

theorem column_score_soc_nil (series : List (Option Str)) (m : Nat)
    (h : series.filterMap id = []) : column_score_soc series m = 0 := by
  simp [column_score_soc, h]

theorem column_score_occ_eq (series : List (Option Str)) (m : Nat)
    (h : series.filterMap id ≠ []) :
    column_score_occ series m =
      mkRat (((series.filterMap id).take m).filter
          (fun v => is_occ_like (some v))).length
        ((series.filterMap id).take m).length := by
  have hne : (series.filterMap id).isEmpty = false := by
    simpa [List.isEmpty_iff] using h
  simp [column_score_occ, hne]

theorem column_score_soc_eq (series : List (Option Str)) (m : Nat)
    (h : series.filterMap id ≠ []) :
    column_score_soc series m =
      mkRat (((series.filterMap id).take m).filter anySoc).length
        ((series.filterMap id).take m).length := by
  have hne : (series.filterMap id).isEmpty = false := by
    simpa [List.isEmpty_iff] using h
  simp [column_score_soc, hne]

theorem column_score_occ_nonneg (series : List (Option Str)) (m : Nat) :
    0 ≤ column_score_occ series m := by
  by_cases h : series.filterMap id = []
  · rw [column_score_occ_nil series m h]
  · rw [column_score_occ_eq series m h]
    exact mkRat_nat_nonneg _ _

theorem column_score_soc_nonneg (series : List (Option Str)) (m : Nat) :
    0 ≤ column_score_soc series m := by
  by_cases h : series.filterMap id = []
  · rw [column_score_soc_nil series m h]
  · rw [column_score_soc_eq series m h]
    exact mkRat_nat_nonneg _ _

theorem column_score_occ_le_one (series : List (Option Str)) (m : Nat) :
    column_score_occ series m ≤ 1 := by
  by_cases h : series.filterMap id = []
  · rw [column_score_occ_nil series m h]; norm_num
  · rw [column_score_occ_eq series m h]
    exact mkRat_nat_le_one _ _ (List.length_filter_le _ _)

theorem column_score_soc_le_one (series : List (Option Str)) (m : Nat) :
    column_score_soc series m ≤ 1 := by
  by_cases h : series.filterMap id = []
  · rw [column_score_soc_nil series m h]; norm_num
  · rw [column_score_soc_eq series m h]
    exact mkRat_nat_le_one _ _ (List.length_filter_le _ _)

/-! ### Lemmas: argmax and column detection -/

theorem argmaxPairsAux_mem (l : List (Nat × ℚ)) :
    ∀ best : Nat × ℚ, argmaxPairsAux best l = best ∨ argmaxPairsAux best l ∈ l := by
  induction l with
  | nil => intro best; left; rfl
  | cons p xs ih =>
    intro best
    obtain ⟨i, x⟩ := p
    rw [argmaxPairsAux]
    by_cases h : x > best.2
    · rw [if_pos h]
      rcases ih (i, x) with h2 | h2
      · right; rw [h2]; exact List.mem_cons_self _ _
      · right; exact List.mem_cons_of_mem _ h2
    · rw [if_neg h]
      rcases ih best with h2 | h2
      · left; exact h2
      · right; exact List.mem_cons_of_mem _ h2

theorem argmaxPairs_mem {l : List (Nat × ℚ)} {p : Nat × ℚ}
    (h : argmaxPairs l = some p) : p ∈ l := by
  cases l with
  | nil => cases h
  | cons q xs =>
    rw [argmaxPairs] at h
    have hq : argmaxPairsAux q xs = p := by
      injection h
    rcases argmaxPairsAux_mem xs q with h2 | h2
    · rw [hq] at h2; rw [← h2]; exact List.mem_cons_self _ _
    · rw [hq] at h2; exact List.mem_cons_of_mem _ h2

theorem argmaxPairs_of_ne_nil {l : List (Nat × ℚ)} (h : l ≠ []) :
    ∃ p, argmaxPairs l = some p := by
  cases l with
  | nil => exact absurd rfl h
  | cons q xs => exact ⟨argmaxPairsAux q xs, rfl⟩

theorem occScoresOf_length (t : Table) :
    (occScoresOf t).length = t.colNames.length := by
  simp [occScoresOf]

theorem socScoresOf_length (t : Table) :
    (socScoresOf t).length = t.colNames.length := by
  simp [socScoresOf]

/-- The shape of `detect_occ_soc_columns` once the argmaxes are known. -/
theorem detect_eq_of (t : Table)
    (hE : (t.rows.isEmpty || t.colNames.isEmpty) = false)
    (i : Nat) (os : ℚ) (j : Nat) (ss : ℚ)
    (hO : argmaxPairs (occScoresOf t).enum = some (i, os))
    (hS : argmaxPairs (socScoresOf t).enum = some (j, ss)) :
    detect_occ_soc_columns t =
      if j = i then
        match argmaxPairs ((socScoresOf t).enum.filter (fun p => p.1 ≠ i)) with
        | some (j2, ss2) => ⟨some i, some j2, os, ss2⟩
        | none => ⟨some i, none, os, 0⟩
      else ⟨some i, some j, os, ss⟩ := by
  unfold detect_occ_soc_columns
  rw [hE, if_neg Bool.false_ne_true, hO, hS]

/-! ### Lemmas: sheet selection -/

theorem occScoresOf_nonneg (t : Table) : ∀ x ∈ occScoresOf t, 0 ≤ x := by
  intro x hx
  rcases List.mem_map.1 hx with ⟨j, _, rfl⟩
  exact column_score_occ_nonneg _ _

theorem socScoresOf_nonneg (t : Table) : ∀ x ∈ socScoresOf t, 0 ≤ x := by
  intro x hx
  rcases List.mem_map.1 hx with ⟨j, _, rfl⟩
  exact column_score_soc_nonneg _ _

theorem snd_mem_of_mem_enum {α : Type} {l : List α} {i : Nat} {x : α}
    (h : (i, x) ∈ l.enum) : x ∈ l := by
  rw [List.enum_eq_zip_range] at h
  exact (List.of_mem_zip h).2

/-- With a non-degenerate table both role argmaxes exist. -/
theorem detect_argmaxes (t : Table)
    (hE : (t.rows.isEmpty || t.colNames.isEmpty) = false) :
    ∃ i os j ss, argmaxPairs (occScoresOf t).enum = some (i, os) ∧
      argmaxPairs (socScoresOf t).enum = some (j, ss) := by
  have hcols : t.colNames ≠ [] := by
    intro h0
    have hemp : t.colNames.isEmpty = true := by simp [h0]
    simp [hemp] at hE
  have hOne : (occScoresOf t).enum ≠ [] := by
    intro h0
    have hlen := congrArg List.length h0
    simp [List.enum_length, occScoresOf_length] at hlen
    exact hcols hlen
  have hSne : (socScoresOf t).enum ≠ [] := by
    intro h0
    have hlen := congrArg List.length h0
    simp [List.enum_length, socScoresOf_length] at hlen
    exact hcols hlen
  obtain ⟨⟨i, os⟩, hO⟩ := argmaxPairs_of_ne_nil hOne
  obtain ⟨⟨j, ss⟩, hS⟩ := argmaxPairs_of_ne_nil hSne
  exact ⟨i, os, j, ss, hO, hS⟩

theorem detect_scores_nonneg (t : Table) :
    0 ≤ (detect_occ_soc_columns t).occScore ∧
    0 ≤ (detect_occ_soc_columns t).socScore := by
  by_cases hE : (t.rows.isEmpty || t.colNames.isEmpty) = true
  · have hdet : detect_occ_soc_columns t = ⟨none, none, 0, 0⟩ := by
      unfold detect_occ_soc_columns
      rw [if_pos hE]
    rw [hdet]
    constructor <;> norm_num
  · have hE' : (t.rows.isEmpty || t.colNames.isEmpty) = false :=
      Bool.eq_false_iff.2 hE
    obtain ⟨i, os, j, ss, hO, hS⟩ := detect_argmaxes t hE'
    have hos : 0 ≤ os :=
      occScoresOf_nonneg t os (snd_mem_of_mem_enum (argmaxPairs_mem hO))
    have hss : 0 ≤ ss :=
      socScoresOf_nonneg t ss (snd_mem_of_mem_enum (argmaxPairs_mem hS))
    have hdet := detect_eq_of t hE' i os j ss hO hS
    rw [hdet]
    by_cases hj : j = i
    · rw [if_pos hj]
      cases hF : argmaxPairs ((socScoresOf t).enum.filter (fun p => p.1 ≠ i)) with
      | none => exact ⟨hos, le_refl 0⟩
      | some p2 =>
        obtain ⟨j2, ss2⟩ := p2
        have hmem := List.mem_of_mem_filter (argmaxPairs_mem hF)
        exact ⟨hos, socScoresOf_nonneg t ss2 (snd_mem_of_mem_enum hmem)⟩
    · rw [if_neg hj]
      exact ⟨hos, hss⟩

theorem sheetCombo_nonneg (t : Table) : 0 ≤ sheetCombo t := by
  unfold sheetCombo
  exact mul_nonneg (detect_scores_nonneg t).1 (detect_scores_nonneg t).2

theorem pickAux_spec (rest : List (String × Table)) :
    ∀ (n : String) (t : Table),
      ∃ n' t' l1 l2,
        pickAux n t (sheetCombo t) rest = (n', t') ∧
        (n, t) :: rest = l1 ++ (n', t') :: l2 ∧
        (∀ p ∈ l1, sheetCombo p.2 < sheetCombo t') ∧
        (∀ p ∈ l2, sheetCombo p.2 ≤ sheetCombo t') := by
  induction rest with
  | nil =>
    intro n t
    exact ⟨n, t, [], [], rfl, rfl, by simp, by simp⟩
  | cons q rest' ih =>
    intro n t
    obtain ⟨m, u⟩ := q
    rw [pickAux]
    by_cases hgt : sheetCombo u > sheetCombo t
    · rw [if_pos hgt]
      obtain ⟨n', t', l1, l2, heq, hdecomp, hlt, hle⟩ := ih m u
      have hut' : sheetCombo u ≤ sheetCombo t' := by
        cases l1 with
        | nil =>
          have hhd : (m, u) = (n', t') := by
            simpa using congrArg (fun l => l.head?) hdecomp
          exact le_of_eq (congrArg (fun p => sheetCombo p.2) hhd)
        | cons q1 l1' =>
          have hq1 : q1 = (m, u) := by
            simpa using (congrArg (fun l => l.head?) hdecomp).symm
          have hlt1 := hlt q1 (List.mem_cons_self q1 l1')
          rw [hq1] at hlt1
          exact le_of_lt hlt1
      refine ⟨n', t', (n, t) :: l1, l2, heq, by simpa using hdecomp, ?_, hle⟩
      intro p hp
      rcases List.mem_cons.1 hp with rfl | hp
      · exact lt_of_lt_of_le hgt hut'
      · exact hlt p hp
    · rw [if_neg hgt]
      obtain ⟨n', t', l1, l2, heq, hdecomp, hlt, hle⟩ := ih n t
      cases l1 with
      | nil =>
        have hhead : (n, t) = (n', t') := by
          simpa using congrArg (fun l => l.head?) hdecomp
        have htail : rest' = l2 := by
          simpa using congrArg (fun l => l.tail) hdecomp
        refine ⟨n', t', [], (m, u) :: l2, heq, ?_, by simp, ?_⟩
        · rw [List.nil_append, ← hhead, htail]
        · intro p hp
          rcases List.mem_cons.1 hp with rfl | hp
          · have ht : sheetCombo t = sheetCombo t' :=
              congrArg (fun p => sheetCombo p.2) hhead
            rw [← ht]
            exact le_of_not_lt hgt
          · exact hle p hp
      | cons q1 l1' =>
        have hq1 : q1 = (n, t) := by
          simpa using (congrArg (fun l => l.head?) hdecomp).symm
        have htail : rest' = l1' ++ (n', t') :: l2 := by
          simpa using congrArg (fun l => l.tail) hdecomp
        have htlt : sheetCombo t < sheetCombo t' := by
          have := hlt q1 (List.mem_cons_self q1 l1')
          rwa [hq1] at this
        refine ⟨n', t', (n, t) :: (m, u) :: l1', l2, heq, by simp [htail], ?_, hle⟩
        intro p hp
        rcases List.mem_cons.1 hp with rfl | hp
        · exact htlt
        · rcases List.mem_cons.1 hp with rfl | hp
          · exact lt_of_le_of_lt (le_of_not_lt hgt) htlt
          · exact hlt p (List.mem_cons_of_mem q1 hp)

/-! ### Lemmas: conflict resolution -/

theorem resolveStage_fst (rows : List Row) :
    (resolveStage rows).1 =
      (dedupKeepFirst rows).filter
        (fun r => r.1 ∉ ambiguousOccs (dedupKeepFirst rows)) := rfl

theorem resolveStage_snd (rows : List Row) :
    (resolveStage rows).2 = ambiguousOccs (dedupKeepFirst rows) := rfl

theorem two_mem_length {α : Type} {l : List α} {a b : α} (ha : a ∈ l)
    (hb : b ∈ l) (hab : a ≠ b) : 2 ≤ l.length := by
  induction l with
  | nil => cases ha
  | cons x xs ih =>
    rcases List.mem_cons.1 ha with rfl | ha2
    · rcases List.mem_cons.1 hb with rfl | hb2
      · exact absurd rfl hab
      · have hpos := List.length_pos.2 (List.ne_nil_of_mem hb2)
        simp only [List.length_cons]
        omega
    · have hpos := List.length_pos.2 (List.ne_nil_of_mem ha2)
      simp only [List.length_cons]
      omega

theorem count_fst_eq_filter_length (dd : List Row) (o : Str) :
    (dd.map Prod.fst).count o = (dd.filter (fun r => r.1 = o)).length := by
  induction dd with
  | nil => rfl
  | cons r rs ih =>
    simp only [List.map_cons]
    by_cases h : r.1 = o
    · rw [h, List.count_cons_self, List.filter_cons_of_pos (by simpa using h),
          List.length_cons, ih]
    · rw [List.count_cons_of_ne (fun he => h he.symm),
          List.filter_cons_of_neg (by simpa using h), ih]

theorem mem_ambiguousOccs (dd : List Row) (o : Str) :
    o ∈ ambiguousOccs dd ↔ 2 ≤ (dd.map Prod.fst).count o := by
  unfold ambiguousOccs
  rw [mem_dedupKeepFirst, List.mem_filter]
  constructor
  · rintro ⟨_, h⟩
    simpa using h
  · intro h
    refine ⟨?_, by simpa using h⟩
    have hpos : 0 < (dd.map Prod.fst).count o := by omega
    exact List.count_pos_iff.1 hpos

theorem exists_two_of_two_le_length {α : Type} {l : List α} (h : 2 ≤ l.length)
    (hnd : l.Nodup) : ∃ x y, x ∈ l ∧ y ∈ l ∧ x ≠ y := by
  match l, h with
  | x :: y :: rest, _ =>
    have hxy : x ≠ y := by
      intro he
      exact (List.nodup_cons.1 hnd).1 (he ▸ List.mem_cons_self y rest)
    exact ⟨x, y, List.mem_cons_self _ _,
      List.mem_cons_of_mem _ (List.mem_cons_self _ _), hxy⟩

theorem ambiguous_iff_two_socs (rows : List Row) (o : Str) :
    2 ≤ ((dedupKeepFirst rows).map Prod.fst).count o ↔
      ∃ s1 s2, (o, s1) ∈ dedupKeepFirst rows ∧ (o, s2) ∈ dedupKeepFirst rows ∧
        s1 ≠ s2 := by
  have hnd : (dedupKeepFirst rows).Nodup := nodup_dedupKeepFirst rows
  rw [count_fst_eq_filter_length]
  constructor
  · intro h
    obtain ⟨x, y, hx, hy, hxy⟩ :=
      exists_two_of_two_le_length h (hnd.filter _)
    obtain ⟨hx2, hx1⟩ := List.mem_filter.1 hx
    obtain ⟨hy2, hy1⟩ := List.mem_filter.1 hy
    have hx1' : x.1 = o := by simpa using hx1
    have hy1' : y.1 = o := by simpa using hy1
    refine ⟨x.2, y.2, ?_, ?_, ?_⟩
    · rw [show (o, x.2) = x from by rw [← hx1']]
      exact hx2
    · rw [show (o, y.2) = y from by rw [← hy1']]
      exact hy2
    · intro he
      apply hxy
      have : x = (o, x.2) := by rw [← hx1']
      rw [this, he, ← hy1']
  · rintro ⟨s1, s2, h1, h2, hne⟩
    have hrne : ((o, s1) : Row) ≠ (o, s2) := by
      intro he
      exact hne (congrArg Prod.snd he)
    exact two_mem_length (List.mem_filter.2 ⟨h1, by simp⟩)
      (List.mem_filter.2 ⟨h2, by simp⟩) hrne

/-! ### Lemmas: builder validation -/

/-- Lemma: `build_crosswalk` after the sheet is fixed, with the lets expanded. -/
theorem build_crosswalk_eq_of (wb : Workbook) (arg : Option String) (m : Bool)
    (name : String) (t0 : Table)
    (h : pick_best_sheet wb arg = some (name, t0)) :
    build_crosswalk wb arg m =
      (match (detect_occ_soc_columns (dropAllNaRows t0)).occCol,
             (detect_occ_soc_columns (dropAllNaRows t0)).socCol with
       | some i, some j =>
         if (detect_occ_soc_columns (dropAllNaRows t0)).occScore < mkRat 1 2 ∨
             (detect_occ_soc_columns (dropAllNaRows t0)).socScore < mkRat 1 2 then
           Except.error (BuildError.columnDetectionFailed name
             (detect_occ_soc_columns (dropAllNaRows t0)).occScore
             (detect_occ_soc_columns (dropAllNaRows t0)).socScore)
         else
           Except.ok
             ((crosswalkRows (colCells (dropAllNaRows t0) i)
                 (colCells (dropAllNaRows t0) j) m).1,
              ⟨name, (dropAllNaRows t0).rows.length,
               (crosswalkRows (colCells (dropAllNaRows t0) i)
                 (colCells (dropAllNaRows t0) j) m).2.1,
               (crosswalkRows (colCells (dropAllNaRows t0) i)
                 (colCells (dropAllNaRows t0) j) m).2.2.1,
               (crosswalkRows (colCells (dropAllNaRows t0) i)
                 (colCells (dropAllNaRows t0) j) m).2.2.2.length,
               (crosswalkRows (colCells (dropAllNaRows t0) i)
                 (colCells (dropAllNaRows t0) j) m).1.length,
               decide ((crosswalkRows (colCells (dropAllNaRows t0) i)
                 (colCells (dropAllNaRows t0) j) m).1.length < 100)⟩)
       | _, _ =>
         Except.error (BuildError.columnDetectionFailed name
           (detect_occ_soc_columns (dropAllNaRows t0)).occScore
           (detect_occ_soc_columns (dropAllNaRows t0)).socScore)) := by
  unfold build_crosswalk
  rw [h]

/-! ### Lemmas: preferred-code resolution -/

theorem mem_enum_of_mem {α : Type} {l : List α} {x : α} (h : x ∈ l) :
    ∃ i, (i, x) ∈ l.enum := by
  obtain ⟨k, hk, rfl⟩ := List.mem_iff_getElem.1 h
  refine ⟨k, ?_⟩
  have hk2 : k < l.enum.length := by simpa [List.enum_length] using hk
  have hg : l.enum[k] = (k, l[k]) := List.getElem_enum l k hk2
  rw [← hg]
  exact List.getElem_mem hk2

theorem filter_map_snd (l : List (Nat × Row)) (p : Row → Bool) :
    (l.map (fun x => x.2)).filter p = (l.filter (fun x => p x.2)).map (fun x => x.2) := by
  induction l with
  | nil => rfl
  | cons x xs ih =>
    simp only [List.map_cons, List.filter_cons]
    by_cases h : p x.2
    · simp [h, ih]
    · simp [h, ih]

theorem build_2018_resolve_filter (rows : List Row) (o : Str) :
    (build_2018_resolve rows).filter (fun r => r.1 = o) =
      (((sortLe prefKeyLe rows.enum).filter (fun p => p.2.1 = o)).take 1).map
        (fun p => p.2) := by
  unfold build_2018_resolve
  rw [filter_map_snd]
  exact congrArg (List.map (fun x => x.2))
    (dedupByKeyAux_filter (fun p => p.2.1) o (sortLe prefKeyLe rows.enum) [])

theorem prefKeyLe_same_occ {x q : Nat × Row} (h : prefKeyLe x q = true)
    (hocc : x.2.1 = q.2.1) :
    prefScore q.2.2 ≤ prefScore x.2.2 ∧
    (prefScore q.2.2 = prefScore x.2.2 → x.1 ≤ q.1) := by
  unfold prefKeyLe at h
  rw [if_neg (not_not_intro hocc)] at h
  by_cases hs : prefScore x.2.2 = prefScore q.2.2
  · rw [if_neg (not_not_intro hs)] at h
    simp only [decide_eq_true_eq] at h
    exact ⟨le_of_eq hs.symm, fun _ => h⟩
  · rw [if_pos hs] at h
    simp only [decide_eq_true_eq] at h
    exact ⟨h, fun he => absurd he.symm hs⟩

/-! ### Claim theorems -/

/-- C10: `column_score_occ` and `column_score_soc` are total: a series with
no non-null cell scores exactly 0; otherwise the score is the matching
fraction `good / len(sample)` over a non-empty sample (so the division is
guarded), and the result always lies in `[0, 1]`. -/
theorem column_scores_total (series : List (Option Str)) (m : Nat) (hm : 0 < m) :
    (series.filterMap id = [] →
      column_score_occ series m = 0 ∧ column_score_soc series m = 0) ∧
    (series.filterMap id ≠ [] →
      0 < ((series.filterMap id).take m).length ∧
      column_score_occ series m =
        ((((series.filterMap id).take m).filter
            (fun v => is_occ_like (some v))).length : ℚ) /
          (((series.filterMap id).take m).length : ℚ) ∧
      column_score_soc series m =
        ((((series.filterMap id).take m).filter anySoc).length : ℚ) /
          (((series.filterMap id).take m).length : ℚ)) ∧
    0 ≤ column_score_occ series m ∧ column_score_occ series m ≤ 1 ∧
    0 ≤ column_score_soc series m ∧ column_score_soc series m ≤ 1 := by
  refine ⟨fun h => ⟨column_score_occ_nil series m h, column_score_soc_nil series m h⟩,
    fun h => ⟨?_, ?_, ?_⟩,
    column_score_occ_nonneg series m, column_score_occ_le_one series m,
    column_score_soc_nonneg series m, column_score_soc_le_one series m⟩
  · rw [List.length_take]
    have : 0 < (series.filterMap id).length := List.length_pos.2 h
    omega
  · rw [column_score_occ_eq series m h, Rat.mkRat_eq_div]
    push_cast
    rfl
  · rw [column_score_soc_eq series m h, Rat.mkRat_eq_div]
    push_cast
    rfl

/-- Witness for C10 at a concrete series and the program's sample cap. -/
theorem column_scores_total_witness :
    0 < ((([some "10".data] : List (Option Str)).filterMap id).take 400).length ∧
    0 ≤ column_score_occ [some "10".data] 400 := by
  exact ⟨((column_scores_total [some "10".data] 400 (by decide)).2.1 (by decide)).1,
    (column_scores_total [some "10".data] 400 (by decide)).2.2.1⟩

/-- C9: for every integer `v ≤ 9999`, `normalize_occ` on the decimal string
of `v` yields exactly `v` zero-padded to 4 digits (4 characters, all
digits, decimal value `v`); and `normalize_occ` is idempotent on every
value it produces. -/
theorem normalize_occ_decimal_idempotent :
    (∀ v : Nat, v ≤ 9999 →
      normalize_occ (some (pyStr v)) = some (zfill 4 (pyStr v)) ∧
      (zfill 4 (pyStr v)).length = 4 ∧
      (zfill 4 (pyStr v)).all Char.isDigit = true ∧
      digitsToNat (zfill 4 (pyStr v)) = v) ∧
    (∀ s w : Str, normalize_occ (some s) = some w →
      normalize_occ (some w) = some w) := by
  constructor
  · intro v hv
    refine ⟨?_, zfill_length _ (pyStr_length_le v hv),
      zfill_all_digits _ (pyStr_all_digits v),
      by rw [zfill_digitsToNat, digitsToNat_pyStr]⟩
    have h := normalize_occ_of_digits (pyStr v) (pyStr_all_digits v)
      (pyStr_ne_nil v) (by rw [digitsToNat_pyStr]; exact hv)
    rwa [digitsToNat_pyStr] at h
  · intro s w h
    have hred : normalize_occ (some s) =
        (if is_occ_like (some s) = true then
          (pyIntOfFloatStr (trim s)).map (fun n => zfill 4 (pyStr n))
         else none) := rfl
    by_cases ho : is_occ_like (some s) = true
    · rw [hred, if_pos ho] at h
      cases hP : pyIntOfFloatStr (trim s) with
      | none => rw [hP] at h; exact absurd h (by simp)
      | some n =>
        rw [hP] at h
        have hw : zfill 4 (pyStr n) = w := by
          simpa using h
        have hn : n ≤ 9999 := by
          have hred2 : is_occ_like (some s) =
              (if ((trim s).any fun c => !(c.isDigit || c = '.')) = true then false
               else
                 match pyIntOfFloatStr (trim s) with
                 | none => false
                 | some k => decide (k ≤ 9999)) := rfl
          rw [hred2, hP] at ho
          by_cases hany : ((trim s).any fun c => !(c.isDigit || c = '.')) = true
          · rw [if_pos hany] at ho
            exact absurd ho Bool.false_ne_true
          · rw [if_neg hany] at ho
            simpa using ho
        rw [← hw]
        exact normalize_occ_fixed n hn
    · rw [hred, if_neg ho] at h
      exact absurd h (by simp)

/-- Witness for C9 at `v = 10`. -/
theorem normalize_occ_decimal_idempotent_witness :
    normalize_occ (some (pyStr 10)) = some (zfill 4 (pyStr 10)) ∧
    normalize_occ (some "0010".data) = some "0010".data := by
  constructor
  · exact ((normalize_occ_decimal_idempotent.1 10 (by decide)).1)
  · exact normalize_occ_decimal_idempotent.2 "10".data "0010".data (by decide)

/-- C7: once a sheet is selected, the build fails with the detection error
— carrying that sheet's name and both scores — iff the chosen occ or soc
column is absent or either score is below 0.5; otherwise the build returns
a result. -/
theorem build_detection_validation (wb : Workbook) (arg : Option String)
    (m : Bool) (name : String) (t0 : Table)
    (h : pick_best_sheet wb arg = some (name, t0)) :
    ((build_crosswalk wb arg m =
        Except.error (BuildError.columnDetectionFailed name
          (detect_occ_soc_columns (dropAllNaRows t0)).occScore
          (detect_occ_soc_columns (dropAllNaRows t0)).socScore)) ↔
      ((detect_occ_soc_columns (dropAllNaRows t0)).occCol = none ∨
       (detect_occ_soc_columns (dropAllNaRows t0)).socCol = none ∨
       (detect_occ_soc_columns (dropAllNaRows t0)).occScore < mkRat 1 2 ∨
       (detect_occ_soc_columns (dropAllNaRows t0)).socScore < mkRat 1 2)) ∧
    (¬ ((detect_occ_soc_columns (dropAllNaRows t0)).occCol = none ∨
        (detect_occ_soc_columns (dropAllNaRows t0)).socCol = none ∨
        (detect_occ_soc_columns (dropAllNaRows t0)).occScore < mkRat 1 2 ∨
        (detect_occ_soc_columns (dropAllNaRows t0)).socScore < mkRat 1 2) →
      ∃ out, build_crosswalk wb arg m = Except.ok out) := by
  rw [build_crosswalk_eq_of wb arg m name t0 h]
  cases hOc : (detect_occ_soc_columns (dropAllNaRows t0)).occCol with
  | none =>
    cases hSc : (detect_occ_soc_columns (dropAllNaRows t0)).socCol with
    | none =>
      exact ⟨⟨fun _ => Or.inl rfl, fun _ => rfl⟩, fun hn => absurd (Or.inl rfl) hn⟩
    | some j =>
      exact ⟨⟨fun _ => Or.inl rfl, fun _ => rfl⟩, fun hn => absurd (Or.inl rfl) hn⟩
  | some i =>
    cases hSc : (detect_occ_soc_columns (dropAllNaRows t0)).socCol with
    | none =>
      exact ⟨⟨fun _ => Or.inr (Or.inl rfl), fun _ => rfl⟩,
        fun hn => absurd (Or.inr (Or.inl rfl)) hn⟩
    | some j =>
      by_cases hcond :
          (detect_occ_soc_columns (dropAllNaRows t0)).occScore < mkRat 1 2 ∨
          (detect_occ_soc_columns (dropAllNaRows t0)).socScore < mkRat 1 2
      · refine ⟨⟨fun _ => ?_, fun _ => if_pos hcond⟩, fun hn => ?_⟩
        · rcases hcond with hc | hc
          · exact Or.inr (Or.inr (Or.inl hc))
          · exact Or.inr (Or.inr (Or.inr hc))
        · rcases hcond with hc | hc
          · exact absurd (Or.inr (Or.inr (Or.inl hc))) hn
          · exact absurd (Or.inr (Or.inr (Or.inr hc))) hn
      · refine ⟨⟨fun heq => ?_, fun hcontra => ?_⟩, fun _ => ⟨_, if_neg hcond⟩⟩
        · simp [if_neg hcond] at heq
        · rcases hcontra with hc | hc | hc | hc
          · exact Option.noConfusion hc
          · exact Option.noConfusion hc
          · exact absurd (Or.inl hc) hcond
          · exact absurd (Or.inr hc) hcond

/-- Witness for C7: an explicitly named one-column sheet whose detection
cannot produce two distinct columns, so the build fails with the detection
error. -/
theorem build_detection_validation_witness :
    build_crosswalk [("S", (⟨["a".data], [[some "x".data]]⟩ : Table))]
        (some "S") false =
      Except.error (BuildError.columnDetectionFailed "S"
        (detect_occ_soc_columns
          (dropAllNaRows ⟨["a".data], [[some "x".data]]⟩)).occScore
        (detect_occ_soc_columns
          (dropAllNaRows ⟨["a".data], [[some "x".data]]⟩)).socScore) := by
  exact (build_detection_validation
    [("S", (⟨["a".data], [[some "x".data]]⟩ : Table))] (some "S") false "S"
    ⟨["a".data], [[some "x".data]]⟩ (by decide)).1.mpr (by decide)

/-- C8: the preferred-code resolver keeps exactly one row per occ present;
the kept row maximizes the preference score over that occ's candidates (so
its soc avoids a `0000` minor-group suffix whenever any candidate does),
and among equally preferred candidates the one occurring first in original
row order is kept. -/
theorem preferred_code_resolution (rows : List Row) (o : Str) :
    ((∃ q ∈ rows, q.1 = o) →
      ((build_2018_resolve rows).filter (fun r => r.1 = o)).length = 1) ∧
    (∀ r ∈ build_2018_resolve rows, r.1 = o →
      ∃ i, (i, r) ∈ rows.enum ∧
        (∀ q ∈ rows.enum, q.2.1 = o → prefScore q.2.2 ≤ prefScore r.2) ∧
        (∀ q ∈ rows.enum, q.2.1 = o → prefScore q.2.2 = prefScore r.2 →
          i ≤ q.1) ∧
        ((∃ q ∈ rows, q.1 = o ∧ "0000".data.isSuffixOf q.2 = false) →
          "0000".data.isSuffixOf r.2 = false)) := by
  have hperm : List.Perm (sortLe prefKeyLe rows.enum) rows.enum :=
    perm_sortLe _ _
  have hpw : (sortLe prefKeyLe rows.enum).Pairwise
      (fun a b => prefKeyLe a b = true) :=
    pairwise_sortLe prefKeyLe prefKeyLe_total
      (fun _ _ _ h1 h2 => prefKeyLe_trans h1 h2) _
  have hpwf : ((sortLe prefKeyLe rows.enum).filter
      (fun p => p.2.1 = o)).Pairwise (fun a b => prefKeyLe a b = true) :=
    hpw.filter _
  have hpermf : List.Perm
      ((sortLe prefKeyLe rows.enum).filter (fun p => p.2.1 = o))
      (rows.enum.filter (fun p => p.2.1 = o)) :=
    hperm.filter _
  constructor
  · rintro ⟨q, hq, hqo⟩
    obtain ⟨iq, hiq⟩ := mem_enum_of_mem hq
    have hne2 : ((sortLe prefKeyLe rows.enum).filter
        (fun p => p.2.1 = o)) ≠ [] := by
      intro h0
      have hmem : (iq, q) ∈ rows.enum.filter (fun p => p.2.1 = o) :=
        List.mem_filter.2 ⟨hiq, by simpa using hqo⟩
      rw [h0] at hpermf
      rw [hpermf.symm.eq_nil] at hmem
      cases hmem
    rw [build_2018_resolve_filter]
    cases hfl : (sortLe prefKeyLe rows.enum).filter (fun p => p.2.1 = o) with
    | nil => exact absurd hfl hne2
    | cons x rest => simp
  · intro r hr hro
    have hrf : r ∈ (build_2018_resolve rows).filter (fun r => r.1 = o) :=
      List.mem_filter.2 ⟨hr, by simpa using hro⟩
    rw [build_2018_resolve_filter] at hrf
    cases hfl : (sortLe prefKeyLe rows.enum).filter (fun p => p.2.1 = o) with
    | nil =>
      rw [hfl] at hrf
      cases hrf
    | cons x rest =>
      rw [hfl] at hrf
      have hrx : r = x.2 := by simpa using hrf
      have hxmem : x ∈ (sortLe prefKeyLe rows.enum).filter
          (fun p => p.2.1 = o) := by
        rw [hfl]
        exact List.mem_cons_self _ _
      have hxen : x ∈ rows.enum :=
        (List.mem_filter.1 (hpermf.mem_iff.1 hxmem)).1
      have hxo : x.2.1 = o := by
        have hp := (List.mem_filter.1 hxmem).2
        simpa using hp
      have hcand : ∀ q ∈ rows.enum, q.2.1 = o →
          prefScore q.2.2 ≤ prefScore x.2.2 ∧
          (prefScore q.2.2 = prefScore x.2.2 → x.1 ≤ q.1) := by
        intro q hq hqo
        have hqf : q ∈ (sortLe prefKeyLe rows.enum).filter
            (fun p => p.2.1 = o) :=
          hpermf.mem_iff.2 (List.mem_filter.2 ⟨hq, by simpa using hqo⟩)
        rw [hfl] at hqf
        rcases List.mem_cons.1 hqf with rfl | hqrest
        · exact ⟨le_refl _, fun _ => le_refl _⟩
        · have hx1 : prefKeyLe x q = true :=
            (List.pairwise_cons.1 (hfl ▸ hpwf)).1 q hqrest
          exact prefKeyLe_same_occ hx1 (by rw [hxo, hqo])
      refine ⟨x.1, ?_, ?_, ?_, ?_⟩
      · rw [hrx, Prod.mk.eta]
        exact hxen
      · intro q hq hqo
        rw [hrx]
        exact (hcand q hq hqo).1
      · intro q hq hqo hsc
        rw [hrx] at hsc
        exact (hcand q hq hqo).2 hsc
      · rintro ⟨q, hq, hqo, hq0⟩
        obtain ⟨iq, hiq⟩ := mem_enum_of_mem hq
        have hle := (hcand (iq, q) hiq (by simpa using hqo)).1
        have hq1 : prefScore q.2 = 1 := by
          simp [prefScore, hq0]
        rw [hrx]
        by_cases hsuf : "0000".data.isSuffixOf x.2.2 = true
        · exfalso
          have hx0 : prefScore x.2.2 = 0 := by
            simp [prefScore, hsuf]
          simp only [hq1] at hle
          omega
        · exact Bool.eq_false_iff.2 hsuf

/-- Witness for C8 at a concrete occ with a major-group and a specific
candidate. -/
theorem preferred_code_resolution_witness :
    ((build_2018_resolve
        [("0010".data, "11-0000".data), ("0010".data, "11-9999".data)]).filter
      (fun r => r.1 = "0010".data)).length = 1 ∧
    "0000".data.isSuffixOf ("0010".data, "11-9999".data).2 = false := by
  have h := preferred_code_resolution
    [("0010".data, "11-0000".data), ("0010".data, "11-9999".data)] "0010".data
  refine ⟨h.1 ⟨("0010".data, "11-0000".data), by decide, by decide⟩, ?_⟩
  have h2 := h.2 ("0010".data, "11-9999".data) (by decide) (by decide)
  obtain ⟨i, _, _, _, h4⟩ := h2
  exact h4 ⟨("0010".data, "11-9999".data), by decide, by decide, by decide⟩

/-- C1 (code bug): in expand mode the one-to-one ambiguous-occ drop still
runs. A one-row sheet whose soc cell holds two socs is exploded into the
two `(occ, soc)` rows the claim expects, and then both are dropped, so the
build returns an empty table — contradicting the module docstring, which
says expand mode keeps multi-SOC rows for downstream dominant choice. -/
theorem expand_mode_drops_ambiguous_code_bug :
    socNormStage true
        (occNormStage [some "10".data] [some "15-1132, 15-1133".data]) =
      [("0010".data, "15-1132".data), ("0010".data, "15-1133".data)] ∧
    build_crosswalk
      [("S", (⟨["a".data, "b".data],
        [[some "10".data, some "15-1132, 15-1133".data]]⟩ : Table))]
      none true =
    Except.ok ([], ⟨"S", 1, 1, 2, 1, 0, true⟩) := by
  decide

/-- C3 counterexample: the autodetect builder emits rows in input order
without sorting — a sheet whose occs arrive in descending order yields a
descending output table. -/
theorem build_output_not_sorted_counterexample :
    build_crosswalk
      [("S", (⟨["a".data, "b".data],
        [[some "20".data, some "11-1021".data],
         [some "10".data, some "11-2021".data]]⟩ : Table))]
      none false =
    Except.ok ([("0020".data, "11-1021".data), ("0010".data, "11-2021".data)],
      ⟨"S", 2, 2, 2, 0, 2, true⟩) ∧
    rowLe ("0020".data, "11-1021".data) ("0010".data, "11-2021".data) = false := by
  decide

/-- Sortedness survives the keep-first dedup. -/
theorem pairwise_dedupByKey_sortLe {α β : Type} [DecidableEq β] (key : α → β)
    (le : α → α → Bool)
    (htot : ∀ a b, le a b = true ∨ le b a = true)
    (htr : ∀ a b c, le a b = true → le b c = true → le a c = true)
    (l : List α) :
    (dedupByKey key (sortLe le l)).Pairwise (fun a b => le a b = true) :=
  List.Pairwise.sublist (sublist_dedupByKeyAux key (sortLe le l) [])
    (pairwise_sortLe le htot htr l)

/-- C3 (amended): the 2018-xwalk `clean_map` emits rows ordered ascending
by occ with ties broken by ascending soc; the autodetect builder does not
sort, keeping input-row order. -/
theorem clean_map_sorted (t : Table) (occCol socCol : Nat) :
    (clean_map t occCol socCol).Pairwise (fun a b => rowLe a b = true) :=
  pairwise_dedupByKey_sortLe Prod.fst rowLe rowLe_total
    (fun _ _ _ h1 h2 => rowLe_trans h1 h2) _

/-- C2 counterexample: a strict build whose detection passes but whose SOC
stage drops every row returns `ok` with an empty table — the autodetect
builder has no fatal zero-row check, only the `< 100` warning flag. -/
theorem build_zero_rows_not_fatal_counterexample :
    build_crosswalk
      [("S", (⟨["a".data, "b".data],
        [[some "10".data, some "11-1021, 11-1022".data],
         [some "20".data, some "11-1021, 11-1022".data]]⟩ : Table))]
      none false =
    Except.ok ([], ⟨"S", 2, 2, 0, 0, 0, true⟩) := by
  decide

/-- C2 (amended): the 2018-xwalk builder aborts fatally exactly when the
cleaned map has zero rows; the autodetect builder never fails on zero rows
— any successful build carries the low-row-count warning iff the final
table has fewer than 100 rows (which includes zero). -/
theorem zero_rows_and_warning (out : List Row) (wb : Workbook)
    (arg : Option String) (m : Bool) (rows : List Row) (d : Diag)
    (hok : build_crosswalk wb arg m = Except.ok (rows, d)) :
    (xwalkFinalize out = Except.error XwalkErr.normalizationEmpty ↔ out = []) ∧
    (d.lowRowWarning = true ↔ rows.length < 100) := by
  constructor
  · unfold xwalkFinalize
    by_cases h : out.length = 0
    · rw [if_pos h]
      exact ⟨fun _ => List.length_eq_zero.1 h, fun _ => rfl⟩
    · rw [if_neg h]
      constructor
      · intro he
        exact Except.noConfusion he
      · intro he
        exact absurd (he ▸ rfl) h
  · cases hp : pick_best_sheet wb arg with
    | none =>
      unfold build_crosswalk at hok
      rw [hp] at hok
      exact Except.noConfusion hok
    | some p =>
      obtain ⟨name, t0⟩ := p
      rw [build_crosswalk_eq_of wb arg m name t0 hp] at hok
      cases hOc : (detect_occ_soc_columns (dropAllNaRows t0)).occCol with
      | none =>
        rw [hOc] at hok
        cases hSc : (detect_occ_soc_columns (dropAllNaRows t0)).socCol with
        | none =>
          rw [hSc] at hok
          exact Except.noConfusion hok
        | some j =>
          rw [hSc] at hok
          exact Except.noConfusion hok
      | some i =>
        rw [hOc] at hok
        cases hSc : (detect_occ_soc_columns (dropAllNaRows t0)).socCol with
        | none =>
          rw [hSc] at hok
          exact Except.noConfusion hok
        | some j =>
          rw [hSc] at hok
          by_cases hcond :
              (detect_occ_soc_columns (dropAllNaRows t0)).occScore < mkRat 1 2 ∨
              (detect_occ_soc_columns (dropAllNaRows t0)).socScore < mkRat 1 2
          · have hok2 :
                (if (detect_occ_soc_columns (dropAllNaRows t0)).occScore < mkRat 1 2 ∨
                    (detect_occ_soc_columns (dropAllNaRows t0)).socScore < mkRat 1 2 then
                  Except.error (BuildError.columnDetectionFailed name
                    (detect_occ_soc_columns (dropAllNaRows t0)).occScore
                    (detect_occ_soc_columns (dropAllNaRows t0)).socScore)
                 else
                  Except.ok
                    ((crosswalkRows (colCells (dropAllNaRows t0) i)
                        (colCells (dropAllNaRows t0) j) m).1,
                     ⟨name, (dropAllNaRows t0).rows.length,
                      (crosswalkRows (colCells (dropAllNaRows t0) i)
                        (colCells (dropAllNaRows t0) j) m).2.1,
                      (crosswalkRows (colCells (dropAllNaRows t0) i)
                        (colCells (dropAllNaRows t0) j) m).2.2.1,
                      (crosswalkRows (colCells (dropAllNaRows t0) i)
                        (colCells (dropAllNaRows t0) j) m).2.2.2.length,
                      (crosswalkRows (colCells (dropAllNaRows t0) i)
                        (colCells (dropAllNaRows t0) j) m).1.length,
                      decide ((crosswalkRows (colCells (dropAllNaRows t0) i)
                        (colCells (dropAllNaRows t0) j) m).1.length < 100)⟩)) =
                Except.ok (rows, d) := hok
            rw [if_pos hcond] at hok2
            exact Except.noConfusion hok2
          · have hok2 :
                (if (detect_occ_soc_columns (dropAllNaRows t0)).occScore < mkRat 1 2 ∨
                    (detect_occ_soc_columns (dropAllNaRows t0)).socScore < mkRat 1 2 then
                  Except.error (BuildError.columnDetectionFailed name
                    (detect_occ_soc_columns (dropAllNaRows t0)).occScore
                    (detect_occ_soc_columns (dropAllNaRows t0)).socScore)
                 else
                  Except.ok
                    ((crosswalkRows (colCells (dropAllNaRows t0) i)
                        (colCells (dropAllNaRows t0) j) m).1,
                     ⟨name, (dropAllNaRows t0).rows.length,
                      (crosswalkRows (colCells (dropAllNaRows t0) i)
                        (colCells (dropAllNaRows t0) j) m).2.1,
                      (crosswalkRows (colCells (dropAllNaRows t0) i)
                        (colCells (dropAllNaRows t0) j) m).2.2.1,
                      (crosswalkRows (colCells (dropAllNaRows t0) i)
                        (colCells (dropAllNaRows t0) j) m).2.2.2.length,
                      (crosswalkRows (colCells (dropAllNaRows t0) i)
                        (colCells (dropAllNaRows t0) j) m).1.length,
                      decide ((crosswalkRows (colCells (dropAllNaRows t0) i)
                        (colCells (dropAllNaRows t0) j) m).1.length < 100)⟩)) =
                Except.ok (rows, d) := hok
            rw [if_neg hcond, Except.ok.injEq, Prod.mk.injEq] at hok2
            obtain ⟨hrows, hd⟩ := hok2
            rw [← hd, ← hrows]
            simp

/-- Witness for C2's amended claim at a concrete build. -/
theorem zero_rows_and_warning_witness :
    (xwalkFinalize [] = Except.error XwalkErr.normalizationEmpty ↔
      ([] : List Row) = []) ∧
    ((⟨"S", 2, 2, 0, 0, 0, true⟩ : Diag).lowRowWarning = true ↔
      ([] : List Row).length < 100) :=
  zero_rows_and_warning []
    [("S", (⟨["a".data, "b".data],
      [[some "10".data, some "11-1021, 11-1022".data],
       [some "20".data, some "11-1021, 11-1022".data]]⟩ : Table))]
    none false [] ⟨"S", 2, 2, 0, 0, 0, true⟩ (by decide)

/-- C4: the strict pipeline ends in `resolveStage`; for every row list, any
occ that still maps to two distinct socs after the `(occ, soc)` dedup has
all of its rows removed, the reported ambiguous-occ list enumerates exactly
those occs without repetition (so its length is their count), and no occ
appears more than once in the final output. -/
theorem strict_mode_resolution (occCells socCells : List (Option Str))
    (rows : List Row) :
    (crosswalkRows occCells socCells false).1 =
      (resolveStage (socNormStage false (occNormStage occCells socCells))).1 ∧
    (crosswalkRows occCells socCells false).2.2.2 =
      (resolveStage (socNormStage false (occNormStage occCells socCells))).2 ∧
    (∀ o s1 s2, (o, s1) ∈ dedupKeepFirst rows →
      (o, s2) ∈ dedupKeepFirst rows → s1 ≠ s2 →
      ∀ s, (o, s) ∉ (resolveStage rows).1) ∧
    (∀ o, o ∈ (resolveStage rows).2 ↔
      ∃ s1 s2, (o, s1) ∈ dedupKeepFirst rows ∧
        (o, s2) ∈ dedupKeepFirst rows ∧ s1 ≠ s2) ∧
    (resolveStage rows).2.Nodup ∧
    ((resolveStage rows).1.map Prod.fst).Nodup := by
  refine ⟨rfl, rfl, ?_, ?_, ?_, ?_⟩
  · intro o s1 s2 h1 h2 hne s hmem
    rw [resolveStage_fst] at hmem
    have h := List.mem_filter.1 hmem
    have hamb : o ∈ ambiguousOccs (dedupKeepFirst rows) :=
      (mem_ambiguousOccs _ o).2
        ((ambiguous_iff_two_socs rows o).2 ⟨s1, s2, h1, h2, hne⟩)
    have hpred := h.2
    simp only [decide_not, Bool.not_eq_true', decide_eq_false_iff_not] at hpred
    exact hpred hamb
  · intro o
    rw [resolveStage_snd, mem_ambiguousOccs]
    exact ambiguous_iff_two_socs rows o
  · rw [resolveStage_snd]
    exact nodup_dedupKeepFirst _
  · rw [resolveStage_fst]
    refine List.Nodup.map_on ?_ ((nodup_dedupKeepFirst rows).filter _)
    intro x hx y hy hxy
    by_contra hne
    obtain ⟨hxdd, hxp⟩ := List.mem_filter.1 hx
    obtain ⟨hydd, _⟩ := List.mem_filter.1 hy
    have hs : x.2 ≠ y.2 := fun he => hne (Prod.ext hxy he)
    have hamb : x.1 ∈ ambiguousOccs (dedupKeepFirst rows) := by
      rw [mem_ambiguousOccs]
      refine (ambiguous_iff_two_socs rows x.1).2 ⟨x.2, y.2, ?_, ?_, hs⟩
      · rw [Prod.mk.eta]
        exact hxdd
      · rw [hxy, Prod.mk.eta]
        exact hydd
    have hnotamb : x.1 ∉ ambiguousOccs (dedupKeepFirst rows) := by
      simpa using hxp
    exact hnotamb hamb

/-- Witness for C4 at a concrete ambiguous occ. -/
theorem strict_mode_resolution_witness :
    (("0010".data, "11-1021".data) ∉
      (resolveStage
        [("0010".data, "11-1021".data), ("0010".data, "11-9999".data)]).1) ∧
    ("0010".data ∈
      (resolveStage
        [("0010".data, "11-1021".data), ("0010".data, "11-9999".data)]).2) := by
  have h := strict_mode_resolution [] []
    [("0010".data, "11-1021".data), ("0010".data, "11-9999".data)]
  refine ⟨h.2.2.1 "0010".data "11-1021".data "11-9999".data
    (by decide) (by decide) (by decide) _, ?_⟩
  exact (h.2.2.2.1 "0010".data).2
    ⟨"11-1021".data, "11-9999".data, by decide, by decide, by decide⟩

/-- C5: with no explicit sheet name, the selected sheet attains the maximum
`occ_score × soc_score` over the whole workbook — every sheet before it in
workbook order scores strictly lower (so ties keep the first-encountered
sheet) and every later sheet scores no higher; an explicit sheet name
bypasses the scan and the named sheet is used as-is. -/
theorem pick_best_sheet_spec (wb : Workbook) (hne : wb ≠ []) :
    (∃ n t l1 l2, pick_best_sheet wb none = some (n, t) ∧
      wb = l1 ++ (n, t) :: l2 ∧
      (∀ p ∈ l1, sheetCombo p.2 < sheetCombo t) ∧
      (∀ p ∈ l2, sheetCombo p.2 ≤ sheetCombo t)) ∧
    (∀ s : String, pick_best_sheet wb (some s) =
      (findSheet s wb).map (fun t0 => (s, t0))) := by
  constructor
  · cases wb with
    | nil => exact absurd rfl hne
    | cons q rest =>
      obtain ⟨n0, t0⟩ := q
      obtain ⟨n', t', l1, l2, heq, hdecomp, hlt, hle⟩ := pickAux_spec rest n0 t0
      refine ⟨n', t', l1, l2, ?_, hdecomp, hlt, hle⟩
      rw [pick_best_sheet, heq]
  · intro s
    rfl

/-- Witness for C5 on a one-sheet workbook. -/
theorem pick_best_sheet_spec_witness :
    pick_best_sheet [("A", (⟨[], []⟩ : Table))] (some "A") =
      (findSheet "A" [("A", (⟨[], []⟩ : Table))]).map (fun t0 => ("A", t0)) :=
  (pick_best_sheet_spec [("A", (⟨[], []⟩ : Table))] (by decide)).2 "A"

/-- C6 (amended): in the autodetect detector the chosen occ and soc columns
are never the same column; when the soc argmax lands on the occ column the
soc role is re-chosen by maximizing the soc score over all other columns
(absent when no other column exists). -/
theorem detect_never_shares_column (t : Table) (i : Nat)
    (hi : (detect_occ_soc_columns t).occCol = some i) :
    (detect_occ_soc_columns t).socCol ≠ some i ∧
    ((argmaxPairs (socScoresOf t).enum).map Prod.fst = some i →
      (detect_occ_soc_columns t).socCol =
        (argmaxPairs ((socScoresOf t).enum.filter (fun p => p.1 ≠ i))).map
          Prod.fst) := by
  by_cases hE : (t.rows.isEmpty || t.colNames.isEmpty) = true
  · have hdet : detect_occ_soc_columns t = ⟨none, none, 0, 0⟩ := by
      unfold detect_occ_soc_columns
      rw [if_pos hE]
    rw [hdet] at hi
    cases hi
  · have hE' : (t.rows.isEmpty || t.colNames.isEmpty) = false :=
      Bool.eq_false_iff.2 hE
    have hcols : t.colNames ≠ [] := by
      intro h0
      have hemp : t.colNames.isEmpty = true := by simp [h0]
      simp [hemp] at hE'
    have hOne : (occScoresOf t).enum ≠ [] := by
      intro h0
      have hlen := congrArg List.length h0
      simp [List.enum_length, occScoresOf_length] at hlen
      exact hcols hlen
    have hSne : (socScoresOf t).enum ≠ [] := by
      intro h0
      have hlen := congrArg List.length h0
      simp [List.enum_length, socScoresOf_length] at hlen
      exact hcols hlen
    obtain ⟨⟨i', os⟩, hO⟩ := argmaxPairs_of_ne_nil hOne
    obtain ⟨⟨j, ss⟩, hS⟩ := argmaxPairs_of_ne_nil hSne
    have hdet := detect_eq_of t hE' i' os j ss hO hS
    by_cases hj : j = i'
    · rw [hdet, if_pos hj] at hi ⊢
      cases hF : argmaxPairs ((socScoresOf t).enum.filter (fun p => p.1 ≠ i')) with
      | some p2 =>
        obtain ⟨j2, ss2⟩ := p2
        rw [hF] at hi
        have hii : i' = i := by simpa using hi
        subst hii
        have hj2 : j2 ≠ i' := by
          have hmem := argmaxPairs_mem hF
          have hfil := List.of_mem_filter hmem
          simpa using hfil
        constructor
        · simpa using hj2
        · intro _
          rw [hF]
          simp
      | none =>
        rw [hF] at hi
        have hii : i' = i := by simpa using hi
        subst hii
        constructor
        · simp
        · intro _
          rw [hF]
          simp
    · rw [hdet, if_neg hj] at hi ⊢
      have hii : i' = i := by simpa using hi
      subst hii
      refine ⟨by simpa using hj, fun hant => ?_⟩
      rw [hS] at hant
      have hji : j = i' := by simpa using hant
      exact absurd hji hj

/-- Witness for C6 at a two-column table whose best column for both roles
coincides, forcing the soc re-pick. -/
theorem detect_never_shares_column_witness :
    (detect_occ_soc_columns
        ⟨["a".data, "b".data], [[some "1234".data, some "abc".data]]⟩).socCol ≠
      some 0 ∧
    (detect_occ_soc_columns
        ⟨["a".data, "b".data], [[some "1234".data, some "abc".data]]⟩).socCol =
      (argmaxPairs (((socScoresOf
          ⟨["a".data, "b".data], [[some "1234".data, some "abc".data]]⟩).enum).filter
            (fun p => p.1 ≠ 0))).map Prod.fst := by
  have h := detect_never_shares_column
    ⟨["a".data, "b".data], [[some "1234".data, some "abc".data]]⟩ 0 (by decide)
  exact ⟨h.1, h.2 (by decide)⟩

/-- C6 counterexample: the claim quantifies over both detectors, but the
2018-xwalk `score_columns` assigns the single column of a one-column table
to both roles instead of leaving the soc role absent. -/
theorem score_columns_shared_column_counterexample :
    (score_columns ⟨["a".data], [[some "1234".data]]⟩).occCol = some 0 ∧
    (score_columns ⟨["a".data], [[some "1234".data]]⟩).socCol = some 0 := by
  decide

end Crosswalk

section Sanity
open Crosswalk

example : split_tokens (some "15-1132, 15-1133".data) = ["15-1132".data, "15-1133".data] := by
  decide

example : split_tokens (some "11-1021 and 11-2021".data) = ["11-1021".data, "11-2021".data] := by
  decide

example : split_tokens (some "  11-1021  ".data) = ["11-1021".data] := by decide

example : split_tokens none = [] := by decide

example : normalize_soc_token "111021".data = some "11-1021".data := by decide

example : normalize_soc_token "11-10".data = none := by decide

example : normalize_occ (some "10".data) = some "0010".data := by decide

example : normalize_occ (some "6130.0".data) = some "6130".data := by decide

example : normalize_occ (some "10000".data) = none := by decide

example : is_occ_like (some "11-1021".data) = false := by decide

example :
    column_score_soc [some "11-1021".data, some "11-1021".data] 400 = 1 := by decide

example :
    column_score_occ [some "11-1021".data, none] 400 = 0 := by decide

example :
    detect_occ_soc_columns
      ⟨["a".data, "b".data],
       [[some "10".data, some "11-1021".data],
        [some "20".data, some "11-2021".data]]⟩ =
    ⟨some 0, some 1, 1, 1⟩ := by decide

example :
    crosswalkRows [some "10".data] [some "15-1132, 15-1133".data] true =
    ([], 1, 2, ["0010".data]) := by decide

example : xwalkOccRe " 613 ".data = true := by decide

example : xwalkSocRe "11-1011".data = true := by decide

example : xwalkSocRe "111011".data = true := by decide

example : xwalkSocRe "11-101".data = false := by decide

example :
    score_columns ⟨["a".data], [[some "1234".data]]⟩ =
    ⟨some 0, 1, some 0, 0⟩ := by decide

example :
    clean_map ⟨["a".data, "b".data],
      [[some "20".data, some "11-1021".data],
       [some "10".data, some "11-2021".data]]⟩ 0 1 =
    [("0010".data, "11-2021".data), ("0020".data, "11-1021".data)] := by decide

example :
    build_2018_resolve
      [("0010".data, "11-0000".data), ("0010".data, "11-9999".data)] =
    [("0010".data, "11-9999".data)] := by decide

end Sanity
